import Mathlib

/-!
# Read400: the version-400 score reader of `src/engraving/rw/read400.cpp`

A shallow embedding of `Read400::read400`, `Read400::readScore400` and
`Read400::readStaff`, followed by theorems about them.

## Shape of the embedding

* The tag stream is a tree: a node is an element (name, attributes, text,
  children) or a `fault`, the point at which the tokenizer reports an error.
  `while (e.readNextStartElement()) { ... }` becomes a recursion over the list of
  child nodes that stops at the first fault and whenever the reader is in error.
* Every branch of the loops reads its element to the end, so that the next start
  element is the next node of the list; the `Layer` branch of `readScore400` reads
  one token only, and `scoreTurn` and `rootView` follow the reader from there.
* `Measure*` pointers are indices into `Score.pool`, the arena of every
  `MeasureBase` created so far; `Score.measures` is the measure sequence
  (`score->measures()`), a list of such indices.
* Readers defined outside `read400.cpp` (`Measure::read`, `Part::read`, ...) are
  fields of `Collaborators`; nothing is assumed about them except their type.
  Assumptions a theorem needs about them are hypotheses of that theorem.
* Whole-document passes defined outside `read400.cpp` (`connectTies`,
  `fixTicks`, ...) are recorded, in call order, in `Session.calls`.
* `qDebug` output is recorded in `Session.debug`; `MScore::lastError` is
  `Session.lastError`.
* Dereferencing a null `Measure*` makes the reader return `none`.
* The `ReadContext& ctx` argument is never used by the three functions and is
  left out.
-/

namespace Ms

/-! ## Fractions -/

/-- Modelled from the spec: the `Fraction` class (`libmscore/fraction.h`) is not among
the sources. A fraction is a numerator and a denominator; ticks, durations and
time signatures are fractions, and `Fraction(4, 4)` is kept distinct from
`Fraction(1, 1)`. -/
structure Fraction where
  numerator : Int
  denominator : Int
deriving DecidableEq, Repr

namespace Fraction

/-- Modelled from the spec: `Fraction::operator+`. Equal denominators add
numerators; otherwise both are brought to the least common multiple. No theorem
below depends on how the sum is computed, only that the same sum is used by the
reader and by the statement. -/
def add (a b : Fraction) : Fraction :=
  if a.denominator = b.denominator then
    ⟨a.numerator + b.numerator, a.denominator⟩
  else
    let l : Int := Int.lcm a.denominator b.denominator
    ⟨b.numerator * (l / b.denominator) + a.numerator * (l / a.denominator), l⟩

instance : Add Fraction := ⟨add⟩

/-- The value `Fraction(0, 1)`. -/
def zero : Fraction := ⟨0, 1⟩

/-- The value `Fraction(4, 4)`. -/
def fourFour : Fraction := ⟨4, 4⟩

end Fraction

/-! ## The tag stream -/

/-- The values of `QXmlStreamReader::Error`. -/
inductive XmlError where
  | NoError
  | UnexpectedElementError
  | CustomError
  | NotWellFormedError
  | PrematureEndOfDocumentError
deriving DecidableEq, Repr

/-- The kinds of error a stream can report: the values of `QXmlStreamReader::Error`
other than `NoError`. -/
inductive FaultKind where
  | UnexpectedElement
  | Custom
  | NotWellFormed
  | PrematureEndOfDocument
deriving DecidableEq, Repr

/-- The error code of a kind of error. -/
def FaultKind.toError : FaultKind → XmlError
  | .UnexpectedElement => .UnexpectedElementError
  | .Custom => .CustomError
  | .NotWellFormed => .NotWellFormedError
  | .PrematureEndOfDocument => .PrematureEndOfDocumentError

/-- A tokenizer error: its kind, its message, the position at which it is raised and
the tag name the reader reports there. -/
structure Fault where
  kind : FaultKind
  msg : String
  line : Int
  col : Int
  name : String
deriving DecidableEq, Repr

/-- Modelled from the spec: the tag stream (`io/xml.h`, on top of `QXmlStreamReader`)
is not among the sources. The spec describes it as a forward-only sequence of
(tag-name, attributes, text/children) events with a position for diagnostics. -/
inductive XmlNode where
  | element (name : String) (attrs : List (String × String)) (text : String)
      (children : List XmlNode)
  | fault (f : Fault)
deriving Repr

namespace XmlNode

/-- Tag name of an element. -/
def name : XmlNode → String
  | element n _ _ _ => n
  | fault _ => ""

/-- Attributes of an element. -/
def attrs : XmlNode → List (String × String)
  | element _ a _ _ => a
  | fault _ => []

/-- Character data of an element. -/
def text : XmlNode → String
  | element _ _ t _ => t
  | fault _ => ""

/-- Child nodes of an element. -/
def children : XmlNode → List XmlNode
  | element _ _ _ cs => cs
  | fault _ => []

mutual
/-- The first tokenizer error met when the node is read through to its end. -/
def firstFault : XmlNode → Option Fault
  | element _ _ _ cs => firstFaultList cs
  | fault f => some f
/-- The first tokenizer error met when the nodes are read in order. -/
def firstFaultList : List XmlNode → Option Fault
  | [] => none
  | c :: cs =>
    match firstFault c with
    | some f => some f
    | none => firstFaultList cs
end

end XmlNode

/-! ## Strings and numbers as Qt reads them -/

/-- UTF-16 code units of a character: `QString` stores and compares code units. -/
def utf16 (c : Char) : List Nat :=
  if c.toNat < 65536 then [c.toNat]
  else [55296 + (c.toNat - 65536) / 1024, 56320 + (c.toNat - 65536) % 1024]

/-- Code units of a string. -/
def codeUnits (s : String) : List Nat :=
  s.toList.flatMap utf16

/-- Strict lexicographic order on code-unit sequences. -/
def lexLess : List Nat → List Nat → Bool
  | _, [] => false
  | [], _ :: _ => true
  | a :: as, b :: bs => if a < b then true else if b < a then false else lexLess as bs

/-- Modelled from the spec: `QString::operator<` against a string literal, a
lexicographic comparison of code units (not aware of version numbers). -/
def qstringLess (a b : String) : Bool :=
  lexLess (codeUnits a) (codeUnits b)

/-- Value of a run of decimal digits; `none` when the run is empty or holds another
character. -/
def digitsValue (cs : List Char) : Option Nat :=
  if cs = [] ∨ ¬ cs.all Char.isDigit then none
  else some (cs.foldl (fun acc c => 10 * acc + (c.toNat - 48)) 0)

/-- Surrounding white space removed. -/
def trimChars (cs : List Char) : List Char :=
  ((cs.dropWhile Char.isWhitespace).reverse.dropWhile Char.isWhitespace).reverse

/-- Modelled from the spec: `QString::toInt`. Optional sign, decimal digits,
surrounding white space allowed; `0` when the text is not a number or does not
fit a 32-bit `int`. -/
def toInt (s : String) : Int :=
  let v : Option Int :=
    match trimChars s.toList with
    | '-' :: ds => (digitsValue ds).map (fun n => - (n : Int))
    | '+' :: ds => (digitsValue ds).map (fun n => (n : Int))
    | ds => (digitsValue ds).map (fun n => (n : Int))
  match v with
  | some i => if -2147483648 ≤ i ∧ i ≤ 2147483647 then i else 0
  | none => 0

/-- Modelled from the spec: `QString::toUInt`; `0` when the text is not a number or
does not fit an `unsigned int`. -/
def toUInt (s : String) : Nat :=
  let v : Option Nat :=
    match trimChars s.toList with
    | '+' :: ds => digitsValue ds
    | ds => digitsValue ds
  match v with
  | some n => if n ≤ 4294967295 then n else 0
  | none => 0

/-! ## The reader (stream state and cursor) -/

/-- Modelled from the spec: `XmlReader`. The error state of the stream, the position
and tag name it reports, and the parse-time cursor: current tick, current track,
current measure index, the last-measure reference and the track remap. -/
structure XmlReader where
  docName : String
  error : XmlError
  errorString : String
  lineNumber : Int
  columnNumber : Int
  name : String
  tick : Fraction
  track : Int
  currentMeasureIndex : Int
  lastMeasure : Option Nat
  tracks : List (Int × Int)
deriving DecidableEq, Repr

namespace XmlReader

/-- A reader at the start of a document. -/
def fresh (docName : String) : XmlReader :=
  { docName := docName, error := .NoError, errorString := "", lineNumber := 1,
    columnNumber := 0, name := "", tick := Fraction.zero, track := 0,
    currentMeasureIndex := 0, lastMeasure := none, tracks := [] }

/-- The tokenizer reports an error; a reader already in error stays as it is. -/
def raise (e : XmlReader) (f : Fault) : XmlReader :=
  if e.error ≠ .NoError then e
  else { e with error := f.kind.toError, errorString := f.msg, lineNumber := f.line,
                columnNumber := f.col, name := f.name }

/-- The call `e.attribute(name)`: the value, or the empty string. -/
def attributeValue (c : XmlNode) (key : String) : String :=
  match c.attrs.find? (fun kv => kv.1 == key) with
  | some kv => kv.2
  | none => ""

/-- The call `e.hasAttribute(name)`. -/
def hasAttribute (c : XmlNode) (key : String) : Bool :=
  c.attrs.any (fun kv => kv.1 == key)

/-- The call `e.intAttribute(name)`: `toInt` of the value, `0` when absent. -/
def intAttribute (c : XmlNode) (key : String) : Int :=
  toInt (attributeValue c key)

/-- The call `e.intAttribute(name, default)`. -/
def intAttributeOr (c : XmlNode) (key : String) (dflt : Int) : Int :=
  if hasAttribute c key then toInt (attributeValue c key) else dflt

/-- The call `e.skipCurrentElement()`: reads to the end of the current element. -/
def skipCurrentElement (e : XmlReader) (c : XmlNode) : XmlReader :=
  match c.firstFault with
  | some f => e.raise f
  | none => e

/-- The call `e.readElementText()`: the text of an element without child elements;
a child element is an `UnexpectedElementError`. -/
def readElementText (e : XmlReader) (c : XmlNode) : String × XmlReader :=
  if e.error ≠ .NoError then ("", e)
  else
    match c.children with
    | [] => (c.text, e)
    | .fault f :: _ => ("", e.raise f)
    | .element n _ _ _ :: _ =>
      ("", e.raise ⟨.UnexpectedElement, "Expected character data.",
                    e.lineNumber, e.columnNumber, n⟩)

/-- The call `e.readInt()`, which is `readElementText().toInt()`. -/
def readInt (e : XmlReader) (c : XmlNode) : Int × XmlReader :=
  ((readElementText e c).1 |> toInt, (readElementText e c).2)

/-- Modelled from the spec: `tracks().insert(s, d)` on the track remap, a multi-map
kept here as a list of entries, newest first. -/
def insertTrack (e : XmlReader) (s d : Int) : XmlReader :=
  { e with tracks := (s, d) :: e.tracks }

end XmlReader

/-! ## The document -/

/-- Modelled from the spec: `MeasureBase` / `Measure`. `kind` is the element type
(`"Measure"`, `"HBox"`, `"VBox"`, `"TBox"`, `"FBox"`), `tick` the start tick,
`ticks` the duration, `mmRest` the link to the multi-measure rest replacing the
measure, `mmRestCount` the number of measures a multi-measure rest stands for,
`content` what the staves read into it. -/
structure Measure where
  kind : String
  tick : Fraction
  ticks : Fraction
  timesig : Fraction
  mmRest : Option Nat
  mmRestCount : Int
  content : List String
deriving DecidableEq, Repr

namespace Measure

/-- Modelled from the spec: the object `Factory::createMeasure` returns, a measure at
tick 0 that is not a multi-measure rest and has none linked. No theorem depends on
the duration and time signature it starts with. -/
def blank : Measure :=
  { kind := "Measure", tick := Fraction.zero, ticks := Fraction.fourFour,
    timesig := Fraction.fourFour, mmRest := none, mmRestCount := 0, content := [] }

/-- The call `mb->isMeasure()`. -/
def isMeasure (m : Measure) : Bool := m.kind == "Measure"

/-- Modelled from the spec: `Measure::isMMRest()`, true for a multi-measure-rest
placeholder. -/
def isMMRest (m : Measure) : Bool := decide (0 < m.mmRestCount)

end Measure

/-- One `Layer` entry. -/
structure Layer where
  name : String
  tags : Nat
deriving DecidableEq, Repr

/-- A part as far as this reader looks at it: what `Part::read` read, and how many
instruments its instrument list holds. -/
structure Part where
  data : String
  instruments : Nat
deriving DecidableEq, Repr

/-- A spanner in the pool: its tag and what `Spanner::read` read. -/
structure Spanner where
  kind : String
  data : String
deriving DecidableEq, Repr

/-- A score order and the answer of `isValid()`. -/
structure ScoreOrder where
  data : String
  valid : Bool
deriving DecidableEq, Repr

/-- The values of `LayoutMode`. -/
inductive LayoutMode where
  | PAGE | FLOAT | LINE | SYSTEM | HORIZONTAL_FIXED
deriving DecidableEq, Repr

/-- The fields of `Score` that `read400.cpp` reads or writes. -/
structure Score where
  mscoreVersion : String
  isMaster : Bool
  excerptTitle : String
  harmonyPlay : Bool
  audio : Option String
  playMode : Int
  layerTags : List String
  layerTagComments : List String
  layer : List Layer
  currentLayer : Int
  synthesizerState : String
  pageNumberOffset : Int
  fileDivision : Int
  showInvisible : Bool
  showUnprintable : Bool
  showFrames : Bool
  showPageborders : Bool
  markIrregularMeasures : Bool
  metaTags : List (String × String)
  scoreOrder : Option ScoreOrder
  parts : List Part
  staves : Nat
  spanners : List Spanner
  layoutMode : LayoutMode
  pool : List Measure
  measures : List Nat
deriving DecidableEq, Repr

namespace Score

/-- A new, empty master score written by the given program version. -/
def empty (version : String) : Score :=
  { mscoreVersion := version, isMaster := true, excerptTitle := "", harmonyPlay := true,
    audio := none, playMode := 0, layerTags := List.replicate 32 "",
    layerTagComments := List.replicate 32 "", layer := [], currentLayer := 0,
    synthesizerState := "", pageNumberOffset := 0, fileDivision := 480,
    showInvisible := true, showUnprintable := true, showFrames := true,
    showPageborders := false, markIrregularMeasures := true, metaTags := [],
    scoreOrder := none, parts := [], staves := 0, spanners := [],
    layoutMode := .PAGE, pool := [], measures := [] }

/-- The object a `Measure*` points to. Every index handed out by the reader is
inside the pool. -/
def measure (s : Score) (id : Nat) : Measure :=
  s.pool.getD id Measure.blank

/-- Modelled from the spec: `Score::setMetaTag`, a key→text map. -/
def setMetaTag (s : Score) (key val : String) : Score :=
  { s with metaTags := (key, val) :: s.metaTags.filter (fun kv => kv.1 != key) }

/-- Modelled from the spec: `score->measures()->add(mb)` for a newly created
`mb`: the object enters the pool and is appended to the sequence. -/
def addNew (s : Score) (m : Measure) : Score :=
  { s with pool := s.pool ++ [m], measures := s.measures ++ [s.pool.length] }

/-- A newly created object that is not put into the sequence. -/
def allocate (s : Score) (m : Measure) : Score :=
  { s with pool := s.pool ++ [m] }

/-- Writes through a `Measure*`. -/
def update (s : Score) (id : Nat) (m : Measure) : Score :=
  { s with pool := s.pool.set id m }

/-- Modelled from the spec: `Score::firstMeasure()`, the first entry of the sequence
that is a measure. -/
def firstMeasure (s : Score) : Option Nat :=
  s.measures.find? (fun j => (s.measure j).isMeasure)

/-- Modelled from the spec: `MeasureBase::nextMeasure()`, the next entry of the
sequence after `id` that is a measure; null for an object that is not in the
sequence. -/
def nextMeasure (s : Score) (id : Nat) : Option Nat :=
  ((s.measures.dropWhile (fun j => j != id)).drop 1).find?
    (fun j => (s.measure j).isMeasure)

end Score

/-- The process-wide settings `MScore::harmonyPlayDisableCompatibility`,
`MScore::testMode` and `MScore::division`. -/
structure MScore where
  harmonyPlayDisableCompatibility : Bool
  testMode : Bool
  division : Int
deriving DecidableEq, Repr

/-- Whole-document operations defined outside `read400.cpp`, as events. -/
inductive Pass where
  | reconnectBrokenConnectors
  | connectTies
  | relayoutForStyles
  | updateInstrumentId (part instrument : Nat)
  | fixTicks
  | updateHarmonyChannels (part : Nat)
  | rebuildMidiMapping
  | updateChannel
  | updateOttava (staff : Nat)
deriving DecidableEq, Repr

/-- Everything a read works on: the score, the reader, `MScore::lastError`, the
`qDebug` lines written and the whole-document passes invoked (oldest first). -/
structure Session where
  score : Score
  e : XmlReader
  lastError : String
  debug : List String
  calls : List Pass
deriving DecidableEq, Repr

/-- Readers and conversions defined outside `read400.cpp`. -/
structure Collaborators where
  /-- `Measure::read(e, staff)` on a measure. -/
  measureRead : XmlNode → Int → Measure → XmlReader → Measure × XmlReader
  /-- `Measure::checkMeasure(staff)`. -/
  checkMeasure : Int → Measure → Measure
  /-- `MeasureBase::read(e)` on a frame box created for the tag. -/
  boxRead : String → XmlNode → XmlReader → Measure × XmlReader
  /-- `Audio::read(e)`. -/
  audioRead : XmlNode → XmlReader → String × XmlReader
  /-- `SynthesizerState::read(e)` on the current state. -/
  synthRead : String → XmlNode → XmlReader → String × XmlReader
  /-- `Text::readXmlText(e, score)`. -/
  readXmlText : XmlNode → XmlReader → String × XmlReader
  /-- `ScoreOrder::read(e)`. -/
  orderRead : XmlNode → XmlReader → ScoreOrder × XmlReader
  /-- `Part::read(e)`: the part and the number of staves it creates. -/
  partRead : XmlNode → XmlReader → (Part × Nat) × XmlReader
  /-- `Spanner::read(e)` on a spanner created for the tag. -/
  spannerRead : String → XmlNode → XmlReader → String × XmlReader
  /-- `Fraction::fromTicks`. -/
  fromTicks : Int → Fraction
  /-- `Score::fileDivision(int)`, given the file-division field. -/
  fileDivision : Int → Int → Int

/-! ## Small steps shared by the three functions -/

namespace Session

/-- One `qDebug` line. -/
def log (st : Session) (line : String) : Session :=
  { st with debug := st.debug ++ [line] }

/-- The reader moves onto a start element: `e.name()` is now its tag. -/
def enter (st : Session) (c : XmlNode) : Session :=
  { st with e := { st.e with name := c.name } }

/-- The tokenizer reports an error. -/
def raise (st : Session) (f : Fault) : Session :=
  { st with e := st.e.raise f }

/-- The call `e.skipCurrentElement()`. -/
def skip (st : Session) (c : XmlNode) : Session :=
  { st with e := st.e.skipCurrentElement c }

/-- Modelled from the spec: `e.unknown()`, which writes a debug line naming the tag
and skips the element. -/
def unknown (st : Session) (c : XmlNode) : Session :=
  (st.log ("tag in <" ++ st.e.docName ++ ">: " ++ c.name)).skip c

/-- The call `e.readNext()` made while the reader stands on the start tag of `c`:
one token is read. It is the character data of `c` when `c` has some (the reader
then names no tag), else the start tag of the first child of `c` or the error
reported in its place, else the end tag of `c`. The character data of an element is
taken to stand before its child elements. -/
def readNext (st : Session) (c : XmlNode) : Session :=
  if c.text ≠ "" then { st with e := { st.e with name := "" } }
  else
    match c.children with
    | [] => st
    | .fault f :: _ => st.raise f
    | .element n _ _ _ :: _ => { st with e := { st.e with name := n } }

end Session

/-- The constant `VOICES`. -/
def VOICES : Int := 4

/-- A result of `int` arithmetic: the value brought into the range of a 32-bit
two's-complement `int`, as the compiled code computes it. -/
def wrapInt (x : Int) : Int :=
  (x + 2147483648) % 4294967296 - 2147483648

/-! ## `Read400::readStaff` -/

/-- Lines 259-268: the measure created for a `Measure` tag of staff 0, as it is just
before its content is read. Its tick is the cursor tick; its duration and time
signature are those of `e.lastMeasure()`, or 4/4 when that is null. -/
def newMeasure (st : Session) : Measure :=
  let f : Fraction :=
    match st.e.lastMeasure with
    | some m => (st.score.measure m).timesig
    | none => Fraction.fourFour
  { Measure.blank with tick := st.e.tick, ticks := f, timesig := f }

/-- Lines 270-271: `measure->read(e, staff); measure->checkMeasure(staff);`. The
object stays a `Measure`. -/
def readAndCheck (ext : Collaborators) (staff : Int) (c : XmlNode) (m : Measure)
    (e : XmlReader) : Measure × XmlReader :=
  ({ ext.checkMeasure staff (ext.measureRead c staff m e).1 with kind := "Measure" },
   (ext.measureRead c staff m e).2)

/-- Lines 272-285: what staff 0 does with the measure once read and checked. The new
object receives the pool index `st.score.pool.length`. -/
def placeMeasure (st : Session) (measure : Measure) (e : XmlReader) : Session :=
  if ¬ measure.isMMRest then
    { st with
      score := st.score.addNew measure
      e := { e with lastMeasure := some st.score.pool.length,
                    tick := measure.tick + measure.ticks } }
  else
    match e.lastMeasure with
    | some m1 =>
      { st with
        score := ((st.score.update m1
                    { st.score.measure m1 with mmRest := some st.score.pool.length }).allocate
                    { measure with tick := (st.score.measure m1).tick })
        e := e }
    | none => { st with score := st.score.allocate measure, e := e }

/-- The call `e.setTick(Fraction::fromTicks(score->fileDivision(e.readInt())))`. -/
def readTick (ext : Collaborators) (st : Session) (c : XmlNode) : Session :=
  { st with
    e := { (st.e.readInt c).2 with
           tick := ext.fromTicks (ext.fileDivision st.score.fileDivision (st.e.readInt c).1) } }

/-- Body of the staff-0 loop (lines 256-295) for one start element; `measureIdx` is
the local counter. -/
def staff0Tag (ext : Collaborators) (st : Session) (measureIdx : Int) (c : XmlNode) :
    Session × Int :=
  if c.name = "Measure" then
    let st1 : Session := { st with e := { st.e with currentMeasureIndex := measureIdx } }
    let r := readAndCheck ext 0 c (newMeasure st1) st1.e
    (placeMeasure st1 r.1 r.2, measureIdx + 1)
  else if c.name = "HBox" ∨ c.name = "VBox" ∨ c.name = "TBox" ∨ c.name = "FBox" then
    let r := ext.boxRead c.name c st.e
    ({ st with
       score := st.score.addNew { r.1 with kind := c.name, tick := r.2.tick }
       e := r.2 }, measureIdx)
  else if c.name = "tick" then
    (readTick ext st c, measureIdx)
  else
    (st.unknown c, measureIdx)

/-- The staff-0 loop `while (e.readNextStartElement())` over the children of the
`Staff` element. -/
def staff0Loop (ext : Collaborators) : Session → Int → List XmlNode → Session
  | st, _, [] => st
  | st, measureIdx, c :: cs =>
    if st.e.error ≠ .NoError then st
    else
      match c with
      | .fault f => st.raise f
      | .element _ _ _ _ =>
        staff0Loop ext (staff0Tag ext (st.enter c) measureIdx c).1
          (staff0Tag ext (st.enter c) measureIdx c).2 cs

/-- State of the loop for a staff other than staff 0: the session, the local counter
and the local pointer `measure` walking the existing sequence. -/
structure Walk where
  st : Session
  measureIdx : Int
  measure : Option Nat
deriving DecidableEq, Repr

/-- Lines 303-308: the measure a `Measure` tag is read into. When the walk has run
out of measures a new one is created at the cursor tick, appended, and a debug
line is written. -/
def targetMeasure (w : Walk) : Session × Nat :=
  match w.measure with
  | some m => (w.st, m)
  | none =>
    ({ (w.st.log "Score::readStaff(): missing measure!") with
       score := w.st.score.addNew { Measure.blank with tick := w.st.e.tick } },
     w.st.score.pool.length)

/-- Lines 302-322: a `Measure` tag of a staff other than staff 0. `none` is the null
dereference in `e.lastMeasure()->nextMeasure()`. -/
def staffNMeasure (ext : Collaborators) (staff : Int) (w : Walk) (c : XmlNode) :
    Option Walk :=
  let st1 := (targetMeasure w).1
  let m := (targetMeasure w).2
  let e1 : XmlReader :=
    { st1.e with tick := (st1.score.measure m).tick, currentMeasureIndex := w.measureIdx }
  let r := readAndCheck ext staff c (st1.score.measure m) e1
  let score2 := st1.score.update m r.1
  if r.1.isMMRest then
    match r.2.lastMeasure with
    | none => none
    | some l =>
      some { st := { st1 with score := score2, e := r.2 }
             measureIdx := w.measureIdx + 1
             measure := score2.nextMeasure l }
  else
    some { st := { st1 with score := score2, e := { r.2 with lastMeasure := some m } }
           measureIdx := w.measureIdx + 1
           measure :=
             match r.1.mmRest with
             | some mm => some mm
             | none => score2.nextMeasure m }

/-- Body of the loop for a staff other than staff 0 (lines 300-327). -/
def staffNTag (ext : Collaborators) (staff : Int) (w : Walk) (c : XmlNode) : Option Walk :=
  if c.name = "Measure" then
    staffNMeasure ext staff w c
  else if c.name = "tick" then
    some { w with st := readTick ext w.st c }
  else
    some { w with st := w.st.unknown c }

/-- The loop `while (e.readNextStartElement())` for a staff other than staff 0. -/
def staffNLoop (ext : Collaborators) (staff : Int) : Walk → List XmlNode → Option Walk
  | w, [] => some w
  | w, c :: cs =>
    if w.st.e.error ≠ .NoError then some w
    else
      match c with
      | .fault f => some { w with st := w.st.raise f }
      | .element _ _ _ _ =>
        match staffNTag ext staff { w with st := w.st.enter c } c with
        | none => none
        | some w1 => staffNLoop ext staff w1 cs

/-- The staff index of a `Staff` element: `e.intAttribute("id", 1) - 1`, computed in
`int`. -/
def staffIndex (c : XmlNode) : Int :=
  wrapInt (XmlReader.intAttributeOr c "id" 1 - 1)

/-- Lines 248-252: the cursor as `readStaff` sets it before its loop; the track
`staff * VOICES` is computed in `int`. -/
def startStaff (st : Session) (staff : Int) : Session :=
  { st with e := { st.e with currentMeasureIndex := 0, tick := Fraction.zero,
                             track := wrapInt (staff * VOICES) } }

/-- The function `Read400::readStaff` on a `Staff` element. -/
def readStaff (ext : Collaborators) (st : Session) (c : XmlNode) : Option Session :=
  if staffIndex c = 0 then
    some (staff0Loop ext (startStaff st 0) 0 c.children)
  else
    (staffNLoop ext (staffIndex c)
      { st := startStaff st (staffIndex c), measureIdx := 0,
        measure := st.score.firstMeasure } c.children).map Walk.st

/-! ## `Read400::readScore400` -/

/-- Lines 80-84: the style compatibility setting for scores written before 3.5. -/
def harmonyPlayCompat (cfg : MScore) (s : Score) : Score :=
  let programVersion := s.mscoreVersion
  let disableHarmonyPlay := cfg.harmonyPlayDisableCompatibility && !cfg.testMode
  if programVersion ≠ "" ∧ qstringLess programVersion "3.5" = true
      ∧ disableHarmonyPlay = true then
    { s with harmonyPlay := false }
  else s

/-- A scalar setting read with `e.readInt()`. -/
def readIntInto (st : Session) (c : XmlNode) (set : Score → Int → Score) : Session :=
  { st with score := set st.score (st.e.readInt c).1, e := (st.e.readInt c).2 }

/-- A metadata tag read with `e.readElementText()`. -/
def readMetaTag (st : Session) (c : XmlNode) (key : String) : Session :=
  { st with score := st.score.setMetaTag key (st.e.readElementText c).1
            e := (st.e.readElementText c).2 }

/-- Lines 173-179: the `Tracklist` tag. -/
def readTracklist (st : Session) (c : XmlNode) : Session :=
  let strack := XmlReader.intAttributeOr c "sTrack" (-1)
  let dtrack := XmlReader.intAttributeOr c "dstTrack" (-1)
  let e1 := if strack ≠ -1 ∧ dtrack ≠ -1 then st.e.insertTrack strack dtrack else st.e
  { st with e := e1.skipCurrentElement c }

/-- The tags the score section names in its chain of comparisons (lines 89-196). -/
def scoreTags : List String :=
  ["Staff", "Omr", "Audio", "showOmr", "playMode", "LayerTag", "Layer", "currentLayer",
   "Synthesizer", "page-offset", "Division", "showInvisible", "showUnprintable",
   "showFrames", "showMargins", "markIrregularMeasures", "Style", "copyright", "rights",
   "movement-number", "movement-title", "work-number", "work-title", "source", "metaTag",
   "Order", "Part", "HairPin", "Ottava", "TextLine", "Volta", "Trill", "Slur", "Pedal",
   "Excerpt", "Tracklist", "Score", "name", "layoutMode"]

/-- Body of the loop of `readScore400` (lines 87-199) for one start element. Every
branch reads the element to its end, except that of a `Layer` tag, which reads one
token (line 113). -/
def scoreTag (ext : Collaborators) (st0 : Session) (c : XmlNode) : Option Session :=
  let st : Session := { st0 with e := { st0.e with track := -1 } }
  let tag := c.name
  if tag = "Staff" then
    readStaff ext st c
  else if tag = "Omr" then
    some (st.skip c)
  else if tag = "Audio" then
    some { st with score := { st.score with audio := some (ext.audioRead c st.e).1 }
                   e := (ext.audioRead c st.e).2 }
  else if tag = "showOmr" then
    some (st.skip c)
  else if tag = "playMode" then
    some (readIntInto st c (fun s n => { s with playMode := n }))
  else if tag = "LayerTag" then
    let id := XmlReader.intAttribute c "id"
    let t := XmlReader.attributeValue c "tag"
    let val := (st.e.readElementText c).1
    let score1 : Score :=
      if 0 ≤ id ∧ id < 32 then
        { st.score with layerTags := st.score.layerTags.set id.toNat t
                        layerTagComments := st.score.layerTagComments.set id.toNat val }
      else st.score
    some { st with score := score1, e := (st.e.readElementText c).2 }
  else if tag = "Layer" then
    let layer : Layer :=
      { name := XmlReader.attributeValue c "name"
        tags := toUInt (XmlReader.attributeValue c "mask") }
    some ({ st with score := { st.score with layer := st.score.layer ++ [layer] } }.readNext c)
  else if tag = "currentLayer" then
    some (readIntInto st c (fun s n => { s with currentLayer := n }))
  else if tag = "Synthesizer" then
    some { st with
           score := { st.score with
                      synthesizerState := (ext.synthRead st.score.synthesizerState c st.e).1 }
           e := (ext.synthRead st.score.synthesizerState c st.e).2 }
  else if tag = "page-offset" then
    some (readIntInto st c (fun s n => { s with pageNumberOffset := n }))
  else if tag = "Division" then
    some (readIntInto st c (fun s n => { s with fileDivision := n }))
  else if tag = "showInvisible" then
    some (readIntInto st c (fun s n => { s with showInvisible := decide (n ≠ 0) }))
  else if tag = "showUnprintable" then
    some (readIntInto st c (fun s n => { s with showUnprintable := decide (n ≠ 0) }))
  else if tag = "showFrames" then
    some (readIntInto st c (fun s n => { s with showFrames := decide (n ≠ 0) }))
  else if tag = "showMargins" then
    some (readIntInto st c (fun s n => { s with showPageborders := decide (n ≠ 0) }))
  else if tag = "markIrregularMeasures" then
    some (readIntInto st c (fun s n => { s with markIrregularMeasures := decide (n ≠ 0) }))
  else if tag = "Style" then
    some (st.skip c)
  else if tag = "copyright" ∨ tag = "rights" then
    some { st with score := st.score.setMetaTag "copyright" (ext.readXmlText c st.e).1
                   e := (ext.readXmlText c st.e).2 }
  else if tag = "movement-number" then
    some (readMetaTag st c "movementNumber")
  else if tag = "movement-title" then
    some (readMetaTag st c "movementTitle")
  else if tag = "work-number" then
    some (readMetaTag st c "workNumber")
  else if tag = "work-title" then
    some (readMetaTag st c "workTitle")
  else if tag = "source" then
    some (readMetaTag st c "source")
  else if tag = "metaTag" then
    some (readMetaTag st c (XmlReader.attributeValue c "name"))
  else if tag = "Order" then
    let order := (ext.orderRead c st.e).1
    some { st with
           score := if order.valid then { st.score with scoreOrder := some order }
                    else st.score
           e := (ext.orderRead c st.e).2 }
  else if tag = "Part" then
    let r := ext.partRead c st.e
    some { st with
           score := { st.score with parts := st.score.parts ++ [r.1.1]
                                    staves := st.score.staves + r.1.2 }
           e := r.2 }
  else if tag = "HairPin" ∨ tag = "Ottava" ∨ tag = "TextLine" ∨ tag = "Volta"
      ∨ tag = "Trill" ∨ tag = "Slur" ∨ tag = "Pedal" then
    let r := ext.spannerRead tag c st.e
    some { st with
           score := { st.score with
                      spanners := st.score.spanners ++ [{ kind := tag, data := r.1 }] }
           e := r.2 }
  else if tag = "Excerpt" then
    some (st.skip c)
  else if tag = "Tracklist" then
    some (readTracklist st c)
  else if tag = "Score" then
    some (st.skip c)
  else if tag = "name" then
    let n := (st.e.readElementText c).1
    some { st with
           score := if ¬ st.score.isMaster then { st.score with excerptTitle := n }
                    else st.score
           e := (st.e.readElementText c).2 }
  else if tag = "layoutMode" then
    let s := (st.e.readElementText c).1
    let st1 : Session := { st with e := (st.e.readElementText c).2 }
    if s = "line" then
      some { st1 with score := { st1.score with layoutMode := .LINE } }
    else if s = "system" then
      some { st1 with score := { st1.score with layoutMode := .SYSTEM } }
    else
      some (st1.log ("layoutMode: " ++ s))
  else
    some (st.unknown c)

mutual
/-- One turn of the loop of `readScore400` on the node `c`: the body of the loop, and
whether the loop then goes on with the tags that follow `c` (`true`) or has ended
(`false`). After every tag but a `Layer` tag with content the reader stands behind
the element and the tags that follow it are next. After a `Layer` tag with
character data the reader stands inside the element: the loop goes on with the
children of the `Layer` tag and ends at its end tag. After a `Layer` tag without
character data whose first child is an element the reader stands inside that
child: the loop goes on with the children of the child and ends at the end tag of
the child. -/
def scoreTurn (ext : Collaborators) : Session → XmlNode → Option (Session × Bool)
  | st, .fault f => some (st.raise f, false)
  | st, .element name attrs text children =>
    match scoreTag ext (st.enter (.element name attrs text children))
        (.element name attrs text children) with
    | none => none
    | some st1 =>
      if name = "Layer" then
        if text ≠ "" then (scoreLoop ext st1 children).map (fun s => (s, false))
        else
          match children with
          | [] => some (st1, true)
          | .fault _ :: _ => some (st1, false)
          | .element _ _ _ inner :: _ => (scoreLoop ext st1 inner).map (fun s => (s, false))
      else some (st1, true)
/-- The loop `while (e.readNextStartElement())` of `readScore400` over the nodes that
follow the reader, up to the next end tag. -/
def scoreLoop (ext : Collaborators) : Session → List XmlNode → Option Session
  | st, [] => some st
  | st, c :: cs =>
    if st.e.error ≠ .NoError then some st
    else
      match scoreTurn ext st c with
      | none => none
      | some (st1, true) => scoreLoop ext st1 cs
      | some (st1, false) => some st1
end

/-- The text `MScore::lastError` receives for an error that is not a custom one. -/
def positionedMessage (e : XmlReader) : String :=
  "XML read error at line " ++ toString e.lineNumber ++ ", column "
    ++ toString e.columnNumber ++ ": " ++ e.name

/-- Lines 215-239 as events: the whole-document passes in the order they are
invoked, for a score with the given parts and number of staves. -/
def finalizationPasses (parts : List Part) (staves : Nat) : List Pass :=
  [Pass.connectTies, Pass.relayoutForStyles]
    ++ (parts.enum.flatMap
          (fun ip => (List.range ip.2.instruments).map (Pass.updateInstrumentId ip.1)))
    ++ [Pass.fixTicks]
    ++ (List.range parts.length).map Pass.updateHarmonyChannels
    ++ [Pass.rebuildMidiMapping, Pass.updateChannel]
    ++ (List.range staves).map Pass.updateOttava

/-- Lines 201-244: what `readScore400` does once its loop has ended. -/
def finishScore (cfg : MScore) (st0 : Session) : Bool × Session :=
  let st : Session := { st0 with calls := st0.calls ++ [Pass.reconnectBrokenConnectors] }
  if st.e.error ≠ .NoError then
    let st1 := st.log (st.e.docName ++ ": xml read error at line "
      ++ toString st.e.lineNumber ++ " col " ++ toString st.e.columnNumber ++ ": "
      ++ st.e.name)
    (false,
     { st1 with
       lastError := if st.e.error = .CustomError then st.e.errorString
                    else positionedMessage st.e })
  else
    (true,
     { st with
       score := { st.score with fileDivision := cfg.division }
       calls := st.calls ++ finalizationPasses st.score.parts st.score.staves })

/-- The function `Read400::readScore400` on a `Score` element. -/
def readScore400 (ext : Collaborators) (cfg : MScore) (st : Session) (c : XmlNode) :
    Option (Bool × Session) :=
  (scoreLoop ext { st with score := harmonyPlayCompat cfg st.score } c.children).map
    (finishScore cfg)

/-! ## `Read400::read400` -/

/-- Where the loop of `readScore400` leaves the reader, seen from a node the loop came
to: behind the node (`behind`), inside the node and in front of nothing but its end
tag, so that the nodes that follow the node are next (`beforeRest`), or further
inside, in front of the nodes `left` and the end tag that follows them
(`inside left`). -/
inductive Sequel where
  | behind
  | beforeRest
  | inside (left : List XmlNode)

mutual
/-- The way of a loop of `readScore400` that ended without error through the node `c`
(the cases are those of `scoreTurn`), and the start elements the loop of `read400`
then meets when the reader is left inside `c`. -/
def sequelTurn : XmlNode → Sequel
  | .fault _ => .behind
  | .element name _ text children =>
    if name = "Layer" then
      if text ≠ "" then
        match scoreSequel children with
        | some left => .inside left
        | none => .beforeRest
      else
        match children with
        | [] => .behind
        | .fault _ :: _ => .behind
        | .element _ _ _ inner :: more =>
          match scoreSequel inner with
          | some left => .inside left
          | none => .inside (rootView more)
    else .behind
/-- The way of a loop of `readScore400` that ended without error through the nodes it
was started on: `none` when the loop ended at the end tag behind them, else the start
elements the loop of `read400` meets from where the reader was left, up to the next
end tag. -/
def scoreSequel : List XmlNode → Option (List XmlNode)
  | [] => none
  | c :: cs =>
    match sequelTurn c with
    | .behind => scoreSequel cs
    | .beforeRest => some (rootView cs)
    | .inside left => some left
/-- The start elements the loop of `read400` meets, in order, when it is started in
front of the given nodes and every `readScore400` on its way returns true: after a
`Score` element whose loop left the reader inside the element, the loop of `read400`
reads on from there and ends at the next end tag. -/
def rootView : List XmlNode → List XmlNode
  | [] => []
  | .fault f :: _ => [.fault f]
  | .element tag attrs text children :: cs =>
    if tag = "Score" then
      .element tag attrs text children ::
        (match scoreSequel children with
         | some left => left
         | none => rootView cs)
    else .element tag attrs text children :: rootView cs
end

/-- The loop of `read400` (lines 48-63) over the start elements it meets. -/
def rootLoop (ext : Collaborators) (cfg : MScore) :
    Session → List XmlNode → Option (Bool × Session)
  | st, [] => some (true, st)
  | st, c :: cs =>
    if st.e.error ≠ .NoError then some (true, st)
    else
      match c with
      | .fault f => some (true, st.raise f)
      | .element tag _ _ _ =>
        if tag = "programVersion" then rootLoop ext cfg ((st.enter c).skip c) cs
        else if tag = "programRevision" then rootLoop ext cfg ((st.enter c).skip c) cs
        else if tag = "Revision" then rootLoop ext cfg ((st.enter c).skip c) cs
        else if tag = "Score" then
          match readScore400 ext cfg (st.enter c) c with
          | none => none
          | some (false, st1) => some (false, st1)
          | some (true, st1) => rootLoop ext cfg st1 cs
        else rootLoop ext cfg ((st.enter c).skip c) cs

/-- The function `Read400::read400` on a document, the list of its top-level nodes.
An empty document makes the tokenizer report a premature end. -/
def read400 (ext : Collaborators) (cfg : MScore) (st : Session) (doc : List XmlNode) :
    Option (Bool × Session) :=
  if st.e.error ≠ .NoError then
    some (false, st.log (st.e.docName ++ ": xml file is empty"))
  else
    match doc with
    | [] =>
      some (false,
        (st.raise ⟨.PrematureEndOfDocument, "Premature end of document.",
                   st.e.lineNumber, st.e.columnNumber, ""⟩).log
          (st.e.docName ++ ": xml file is empty"))
    | .fault f :: _ =>
      some (false, (st.raise f).log (st.e.docName ++ ": xml file is empty"))
    | .element tag a t cs :: _ =>
      if tag = "museScore" then
        rootLoop ext cfg (st.enter (.element tag a t cs)) (rootView cs)
      else
        some (false,
          (st.enter (.element tag a t cs)).log
            (st.e.docName ++ ": invalid structure of xml file"))

/-! ## Sample collaborators and documents for worked examples -/

/-- Time signature a sample `Measure` tag carries in its attributes, if any. -/
def sampleTimesig (c : XmlNode) : Option Fraction :=
  if XmlReader.hasAttribute c "sigN" ∧ XmlReader.hasAttribute c "sigD" then
    some ⟨XmlReader.intAttribute c "sigN", XmlReader.intAttribute c "sigD"⟩
  else none

/-- Sample readers. A `Measure` tag carries its time signature in the attributes
`sigN`/`sigD` and its multi-measure-rest count in `mmRest`; reading it appends the
tag's text to the content of the measure and moves the cursor tick to the end of
the measure. Every other reader takes the text of its tag and skips the tag. -/
def sampleReaders : Collaborators :=
  { measureRead := fun c staff m e =>
      let m1 : Measure :=
        { m with
          timesig := (sampleTimesig c).getD m.timesig
          ticks := (sampleTimesig c).getD m.ticks
          mmRestCount :=
            if XmlReader.hasAttribute c "mmRest" then XmlReader.intAttribute c "mmRest"
            else m.mmRestCount
          content := m.content ++ [c.text] }
      (m1, { e.skipCurrentElement c with tick := m.tick + m1.ticks, track := staff * VOICES })
    checkMeasure := fun _ m => m
    boxRead := fun tag c e => ({ Measure.blank with kind := tag }, e.skipCurrentElement c)
    audioRead := fun c e => (c.text, e.skipCurrentElement c)
    synthRead := fun _ c e => (c.text, e.skipCurrentElement c)
    readXmlText := fun c e => (c.text, e.skipCurrentElement c)
    orderRead := fun c e => ({ data := c.text, valid := true }, e.skipCurrentElement c)
    partRead := fun c e => (({ data := c.text, instruments := 1 }, 1), e.skipCurrentElement c)
    spannerRead := fun _ c e => (c.text, e.skipCurrentElement c)
    fromTicks := fun t => ⟨t, 1920⟩
    fileDivision := fun _ t => t }

/-- Sample settings: harmony-play compatibility requested, test mode off. -/
def sampleSettings : MScore :=
  { harmonyPlayDisableCompatibility := true, testMode := false, division := 480 }

/-- A session about to read `doc.mscx` into a new score written by the given
version, with no error recorded. -/
def sampleSession (version : String) : Session :=
  { score := Score.empty version, e := XmlReader.fresh "doc.mscx", lastError := "",
    debug := [], calls := [] }

/-- A sample `Measure` tag with a time signature. -/
def measureTag (n d : String) (text : String) : XmlNode :=
  .element "Measure" [("sigN", n), ("sigD", d)] text []

/-- A sample `Measure` tag without a time signature. -/
def plainMeasureTag (text : String) : XmlNode :=
  .element "Measure" [] text []

/-- A sample `Measure` tag holding a multi-measure rest of `count` measures. -/
def mmRestTag (count : String) : XmlNode :=
  .element "Measure" [("mmRest", count)] "" []

/-- A sample `Staff` tag. -/
def staffTag (id : String) (children : List XmlNode) : XmlNode :=
  .element "Staff" [("id", id)] "" children

/-- A sample `Tracklist` tag. -/
def tracklistTag (s d : String) : XmlNode :=
  .element "Tracklist" [("sTrack", s), ("dstTrack", d)] "" []

/-- Tag of the first start element of a document, if the document has one. -/
def firstStartElement : List XmlNode → Option String
  | .element tag _ _ _ :: _ => some tag
  | _ => none

/-- The tags the staff-0 loop names (lines 258-291). -/
def staff0Tags : List String :=
  ["Measure", "HBox", "VBox", "TBox", "FBox", "tick"]

/-- The tags the loop for the other staves names (lines 302-323). -/
def staffNTags : List String :=
  ["Measure", "tick"]

/-- A sample `Division` tag. -/
def divisionTag (n : String) : XmlNode :=
  .element "Division" [] n []

/-- A sample document fragment: a `Score` element that sets the division and then
breaks off with a tokenizer error at line 7, column 3, inside a `Part` tag. -/
def brokenScoreTag : XmlNode :=
  .element "Score" [] ""
    [divisionTag "240",
     .fault ⟨.NotWellFormed, "Opening and ending tag mismatch.", 7, 3, "Part"⟩]

/-- A sample well-formed `Score` element with two staves. -/
def twoStaffScoreTag : XmlNode :=
  .element "Score" [] ""
    [divisionTag "240",
     staffTag "1" [measureTag "3" "4" "a", plainMeasureTag "b"],
     staffTag "2" [plainMeasureTag "x", plainMeasureTag "y"]]

/-- The session without its debug lines. -/
def Session.quiet (st : Session) : Session :=
  { st with debug := [] }

/-- The walk without the debug lines of its session. -/
def Walk.quiet (w : Walk) : Walk :=
  { w with st := w.st.quiet }

/-- Two sessions that hold the same document and the same stream state: they may
differ in their debug lines, in the cursor track and, while the stream reports no
error, in the tag name the reader stands on. -/
def Session.Agree (a b : Session) : Prop :=
  a.score = b.score ∧ a.lastError = b.lastError ∧ a.calls = b.calls
    ∧ { a.e with track := 0, name := "" } = { b.e with track := 0, name := "" }
    ∧ (a.e.error ≠ .NoError → a.e.name = b.e.name)

/-- Two outcomes of a loop that both fail, or both succeed with agreeing sessions. -/
def agreeOutcome : Option Session → Option Session → Prop
  | some a, some b => a.Agree b
  | none, none => True
  | _, _ => False

/-- What a caller sees of a finished `readScore400`: the result, the score, the
last-error string, the passes run, the track remap and the stream error. -/
def outcomeView (r : Bool × Session) :
    Bool × Score × String × List Pass × List (Int × Int) × XmlError :=
  (r.1, r.2.score, r.2.lastError, r.2.calls, r.2.e.tracks, r.2.e.error)

/-- The most recently appended real measure: the last entry of the measure sequence
that is a measure, if there is one. -/
def Score.lastReal (s : Score) : Option Nat :=
  (s.measures.filter (fun j => (s.measure j).isMeasure)).getLast?

/-- The time signature a new measure of staff 0 inherits: that of the most recently
appended real measure, and 4/4 when there is none. -/
def Score.inheritedTimesig (s : Score) : Fraction :=
  match s.lastReal with
  | some m => (s.measure m).timesig
  | none => Fraction.fourFour

/-- The content readers never reassign the cursor's last-measure reference: only
`readStaff` calls `setLastMeasure`. -/
def KeepsLastMeasure (ext : Collaborators) : Prop :=
  (∀ c staff m e, (ext.measureRead c staff m e).2.lastMeasure = e.lastMeasure)
    ∧ (∀ tag c e, (ext.boxRead tag c e).2.lastMeasure = e.lastMeasure)
/-- The sequence names only objects of the pool, and the cursor's last-measure
reference is the most recently appended real measure. -/
def Session.Linked (st : Session) : Prop :=
  (∀ j ∈ st.score.measures, j < st.score.pool.length)
    ∧ st.e.lastMeasure = st.score.lastReal

/-- The measure sequence as objects: `score->measures()` in sequence order. -/
def Score.sequence (s : Score) : List Measure :=
  s.measures.map s.measure

/-- A `Measure` tag whose content reads, on staff 0, as an ordinary measure: whatever
the session in which the measure is created and the reader it is read from, the
measure is not a multi-measure rest once read and checked, reading leaves its
start tick alone, and reading raises no stream error. -/
def PlainMeasureTag (ext : Collaborators) (t : XmlNode) : Prop :=
  (∃ a x ch, t = .element "Measure" a x ch)
    ∧ ∀ (st : Session) (e : XmlReader),
        (readAndCheck ext 0 t (newMeasure st) e).1.isMMRest = false
        ∧ (readAndCheck ext 0 t (newMeasure st) e).1.tick = (newMeasure st).tick
        ∧ (e.error = .NoError → (readAndCheck ext 0 t (newMeasure st) e).2.error = .NoError)

/-- Measures laid end to end from tick `t`: each starts where the one before it
ends. -/
def Chained : Fraction → List Measure → Prop
  | _, [] => True
  | t, m :: ms => m.tick = t ∧ Chained (m.tick + m.ticks) ms

/-- An ordinary measure of the sequence: a measure that is not a multi-measure rest
and has no multi-measure rest linked to it. -/
def Measure.Settled (m : Measure) : Prop :=
  m.isMeasure = true ∧ m.mmRest = none ∧ m.isMMRest = false

/-- A `Measure` tag whose content, read on the given staff into an ordinary measure,
leaves it an ordinary measure and raises no stream error. -/
def InPlaceMeasureTag (ext : Collaborators) (staff : Int) (t : XmlNode) : Prop :=
  (∃ a x ch, t = .element "Measure" a x ch)
    ∧ ∀ (m : Measure) (e : XmlReader), m.mmRest = none → m.isMMRest = false →
        (readAndCheck ext staff t m e).1.mmRest = none
        ∧ (readAndCheck ext staff t m e).1.isMMRest = false
        ∧ (e.error = .NoError → (readAndCheck ext staff t m e).2.error = .NoError)

/-- The walk of a staff other than staff 0 is aligned with the sequence: the sequence
is `done ++ remaining`, it names each object once, every object of it is an ordinary
measure of the pool, the local pointer stands on the first remaining measure (null
when none remains), and the stream reports no error. -/
def Walk.Aligned (w : Walk) (done remaining : List Nat) : Prop :=
  w.st.score.measures = done ++ remaining
    ∧ (done ++ remaining).Nodup
    ∧ (∀ j ∈ done ++ remaining, j < w.st.score.pool.length ∧ (w.st.score.measure j).Settled)
    ∧ w.measure = remaining.head?
    ∧ w.st.e.error = .NoError

/-- The debug line written when a staff other than staff 0 meets a `Measure` tag with
no measure left to match. -/
def missingMeasureLine : String := "Score::readStaff(): missing measure!"

/-- A sample session: staff 0 of a new document has been read and defined the four
measures M0..M3 (in 3/4, 3/4, 2/4 and 2/4). -/
def fourMeasureSession : Session :=
  staff0Loop sampleReaders (startStaff (sampleSession "4.0") 0) 0
    [measureTag "3" "4" "a", plainMeasureTag "b", measureTag "2" "4" "c", plainMeasureTag "d"]

/-- A sample document: one part, staff 1 with four measures, staff 2 with three
`Measure` tags. -/
def shortSecondStaffDocument : List XmlNode :=
  [.element "museScore" [] ""
    [.element "Score" [] ""
      [.element "Part" [] "" [],
       staffTag "1" [measureTag "3" "4" "a", plainMeasureTag "b", measureTag "2" "4" "c",
                     plainMeasureTag "d"],
       staffTag "2" [plainMeasureTag "x", plainMeasureTag "y", plainMeasureTag "z"]]]]

end Ms

namespace Ms

/-! ## Helper lemmas -/

theorem lexLess_nil_right (xs : List Nat) : lexLess xs [] = false := by
  cases xs <;> rfl

/-- What is not below `v` is not below anything `v` is not below. -/
theorem lexLess_false_trans :
    ∀ (t v w : List Nat), lexLess v t = false → lexLess w v = false → lexLess w t = false
  | [], _, w, _, _ => lexLess_nil_right w
  | _ :: _, [], _, h, _ => by simp [lexLess] at h
  | _ :: _, _ :: _, [], _, h => by simp [lexLess] at h
  | b :: bs, a :: as, c :: cs, h1, h2 => by
    simp only [lexLess] at h1 h2 ⊢
    by_cases hab : a < b
    · simp [hab] at h1
    · by_cases hca : c < a
      · simp [hca] at h2
      · by_cases hba : b < a
        · have hcb : ¬ c < b := by omega
          have hbc : b < c := by omega
          simp [hcb, hbc]
        · have hab' : a = b := by omega
          subst hab'
          simp only [hab, hba, if_false] at h1
          by_cases hac : a < c
          · simp [hca, hac]
          · simp only [hca, hac, if_false] at h2 ⊢
            exact lexLess_false_trans bs as cs h1 h2

/-! ## C2: the harmony-play compatibility setting -/

/-- C2. `readScore400` applies the harmony-play compatibility setting to the score
before its loop reads any child tag. With the compatibility flag set and test mode
off, the style flag is forced to false when the producer version is non-empty and
lexicographically below "3.5", and the score is untouched otherwise; so "3.4.2" and
"3.4.9" are forced, and "3.5", "3.5.0", the empty string and every version that is
not below an untouched one (in the same lexicographic order) are untouched. With the
flag unset or test mode on, the score is untouched for every version. -/
theorem readScore400_harmonyPlay_compat (ext : Collaborators) (cfg : MScore) (st : Session)
    (c : XmlNode) :
    readScore400 ext cfg st c
        = (scoreLoop ext { st with score := harmonyPlayCompat cfg st.score } c.children).map
            (finishScore cfg)
    ∧ (∀ s : Score, cfg.harmonyPlayDisableCompatibility = true → cfg.testMode = false →
        (s.mscoreVersion ≠ "" ∧ qstringLess s.mscoreVersion "3.5" = true →
            harmonyPlayCompat cfg s = { s with harmonyPlay := false })
        ∧ (¬ (s.mscoreVersion ≠ "" ∧ qstringLess s.mscoreVersion "3.5" = true) →
            harmonyPlayCompat cfg s = s))
    ∧ (∀ s : Score, cfg.harmonyPlayDisableCompatibility = true → cfg.testMode = false →
        harmonyPlayCompat cfg { s with mscoreVersion := "3.4.2" }
            = { s with mscoreVersion := "3.4.2", harmonyPlay := false }
        ∧ harmonyPlayCompat cfg { s with mscoreVersion := "3.4.9" }
            = { s with mscoreVersion := "3.4.9", harmonyPlay := false }
        ∧ harmonyPlayCompat cfg { s with mscoreVersion := "3.5" }
            = { s with mscoreVersion := "3.5" }
        ∧ harmonyPlayCompat cfg { s with mscoreVersion := "3.5.0" }
            = { s with mscoreVersion := "3.5.0" }
        ∧ harmonyPlayCompat cfg { s with mscoreVersion := "" }
            = { s with mscoreVersion := "" })
    ∧ (∀ (s : Score) (v w : String), qstringLess v "3.5" = false → qstringLess w v = false →
        harmonyPlayCompat cfg { s with mscoreVersion := w } = { s with mscoreVersion := w })
    ∧ (∀ s : Score, cfg.harmonyPlayDisableCompatibility = false ∨ cfg.testMode = true →
        harmonyPlayCompat cfg s = s) := by
  refine ⟨rfl, ?_, ?_, ?_, ?_⟩
  · intro s hflag htest
    constructor
    · intro h
      simp [harmonyPlayCompat, h.1, h.2, hflag, htest]
    · intro h
      unfold harmonyPlayCompat
      rw [if_neg]
      intro h3
      exact h ⟨h3.1, h3.2.1⟩
  · intro s hflag htest
    have h1 : qstringLess "3.4.2" "3.5" = true := by decide
    have h2 : qstringLess "3.4.9" "3.5" = true := by decide
    have h3 : qstringLess "3.5" "3.5" = false := by decide
    have h4 : qstringLess "3.5.0" "3.5" = false := by decide
    refine ⟨?_, ?_, ?_, ?_, ?_⟩
    · simp [harmonyPlayCompat, h1, hflag, htest]
    · simp [harmonyPlayCompat, h2, hflag, htest]
    · simp [harmonyPlayCompat, h3]
    · simp [harmonyPlayCompat, h4]
    · simp [harmonyPlayCompat]
  · intro s v w hv hw
    have h : qstringLess w "3.5" = false :=
      lexLess_false_trans (codeUnits "3.5") (codeUnits v) (codeUnits w) hv hw
    simp [harmonyPlayCompat, h]
  · intro s h
    unfold harmonyPlayCompat
    rw [if_neg]
    intro h3
    rcases h with h | h
    · simp [h] at h3
    · simp [h] at h3

/-- C2 at the boundary versions, with the compatibility flag set and test mode off:
a score written by 3.4.2 or 3.4.9 has the style flag forced to false, a score
written by 3.5 or 3.5.0 keeps it. -/
theorem harmonyPlay_compat_at_boundary_versions :
    (harmonyPlayCompat sampleSettings (Score.empty "3.4.2")).harmonyPlay = false
    ∧ (harmonyPlayCompat sampleSettings (Score.empty "3.4.9")).harmonyPlay = false
    ∧ (harmonyPlayCompat sampleSettings (Score.empty "3.5")).harmonyPlay = true
    ∧ (harmonyPlayCompat sampleSettings (Score.empty "3.5.0")).harmonyPlay = true := by
  obtain ⟨h1, h2, h3, h4, -⟩ :=
    (readScore400_harmonyPlay_compat sampleReaders sampleSettings (sampleSession "4.0")
      twoStaffScoreTag).2.2.1 (Score.empty "") rfl rfl
  refine ⟨?_, ?_, ?_, ?_⟩
  · exact congrArg Score.harmonyPlay h1
  · exact congrArg Score.harmonyPlay h2
  · exact congrArg Score.harmonyPlay h3
  · exact congrArg Score.harmonyPlay h4

/-- The comparison of line 82 is lexicographic, not by version number: "3.10" sorts
below "3.5", so a score written by a version 3.10 has the style flag forced. -/
theorem version_3_10_sorts_below_3_5 :
    qstringLess "3.10" "3.5" = true
    ∧ (harmonyPlayCompat sampleSettings (Score.empty "3.10")).harmonyPlay = false := by
  decide

/-! ## C7: the track remap -/

theorem raise_tracks (e : XmlReader) (f : Fault) : (e.raise f).tracks = e.tracks := by
  unfold XmlReader.raise
  split <;> rfl

theorem skipCurrentElement_tracks (e : XmlReader) (c : XmlNode) :
    (e.skipCurrentElement c).tracks = e.tracks := by
  unfold XmlReader.skipCurrentElement
  split
  · exact raise_tracks e _
  · rfl

/-- C7, as the code has it. For every `Tracklist` tag, `readScore400` inserts the
entry sTrack -> dstTrack into the track remap if and only if both attribute values,
read as integers with a missing attribute reading as -1, differ from -1; the entry
is then the newest one. A tag with either attribute missing leaves the remap
unchanged, a present attribute contributes `toInt` of its text, and the score is
not touched. -/
theorem tracklist_registers_unless_minus_one (ext : Collaborators) (st : Session)
    (c : XmlNode) (hc : c.name = "Tracklist") :
    ∃ st1, scoreTag ext st c = some st1
      ∧ st1.score = st.score
      ∧ st1.e.tracks =
          (if XmlReader.intAttributeOr c "sTrack" (-1) ≠ -1
              ∧ XmlReader.intAttributeOr c "dstTrack" (-1) ≠ -1 then
            (XmlReader.intAttributeOr c "sTrack" (-1),
              XmlReader.intAttributeOr c "dstTrack" (-1)) :: st.e.tracks
           else st.e.tracks)
      ∧ (XmlReader.hasAttribute c "sTrack" = false ∨ XmlReader.hasAttribute c "dstTrack" = false →
          st1.e.tracks = st.e.tracks)
      ∧ (∀ key, XmlReader.hasAttribute c key = true →
          XmlReader.intAttributeOr c key (-1) = toInt (XmlReader.attributeValue c key)) := by
  refine ⟨readTracklist { st with e := { st.e with track := -1 } } c, ?_, rfl, ?_, ?_, ?_⟩
  · simp [scoreTag, hc]
  · simp only [readTracklist, skipCurrentElement_tracks]
    split <;> rfl
  · intro h
    simp only [readTracklist, skipCurrentElement_tracks]
    rw [if_neg]
    rcases h with h | h
    · simp [XmlReader.intAttributeOr, h]
    · simp [XmlReader.intAttributeOr, h]
  · intro key h
    simp [XmlReader.intAttributeOr, h]

/-- C7 at `sTrack="2" dstTrack="5"`: the entry 2 -> 5 is registered. -/
theorem tracklist_registers_2_5 :
    (tracklistTag "2" "5").name = "Tracklist"
    ∧ (scoreTag sampleReaders (sampleSession "4.0") (tracklistTag "2" "5")).map
        (fun s => s.e.tracks) = some [(2, 5)] := by
  refine ⟨by decide, ?_⟩
  obtain ⟨st1, h, -, ht, -, -⟩ :=
    tracklist_registers_unless_minus_one sampleReaders (sampleSession "4.0")
      (tracklistTag "2" "5") (by decide)
  rw [h, Option.map_some', ht]
  decide

/-- C7 refuted as stated: with `sTrack="-2" dstTrack="5"` both attributes are present,
the source track is negative, and the entry -2 -> 5 is registered all the same. -/
theorem tracklist_negative_source_is_registered :
    XmlReader.intAttributeOr (tracklistTag "-2" "5") "sTrack" (-1) = -2
    ∧ ¬ (0 ≤ XmlReader.intAttributeOr (tracklistTag "-2" "5") "sTrack" (-1))
    ∧ (scoreTag sampleReaders (sampleSession "4.0") (tracklistTag "-2" "5")).map
        (fun s => s.e.tracks) = some [(-2, 5)] := by
  decide

/-! ## C1: the outer envelope -/

/-- C1, as the code has it. For every document that is empty (no start element) or
whose first start element is not "museScore", `read400` returns false without
entering the score section: the score is unchanged and no step of `readScore400`
is run. It writes one debug line and leaves `MScore::lastError` as it was. -/
theorem read400_rejects_without_root (ext : Collaborators) (cfg : MScore) (st : Session)
    (doc : List XmlNode) (h : firstStartElement doc ≠ some "museScore") :
    ∃ st1 line, read400 ext cfg st doc = some (false, st1)
      ∧ st1.score = st.score
      ∧ st1.calls = st.calls
      ∧ st1.e.tracks = st.e.tracks
      ∧ st1.debug = st.debug ++ [line]
      ∧ st1.lastError = st.lastError := by
  unfold read400
  split
  · exact ⟨_, _, rfl, rfl, rfl, rfl, rfl, rfl⟩
  · match doc, h with
    | [], _ => exact ⟨_, _, rfl, rfl, rfl, raise_tracks _ _, rfl, rfl⟩
    | .fault f :: _, _ => exact ⟨_, _, rfl, rfl, rfl, raise_tracks _ _, rfl, rfl⟩
    | .element tag a t cs :: _, h =>
      have htag : tag ≠ "museScore" := by
        intro e
        exact h (by simp [firstStartElement, e])
      simp only [htag, if_false]
      exact ⟨_, _, rfl, rfl, rfl, rfl, rfl, rfl⟩

/-- C1 at a document whose root tag is "score": the read is refused and the score is
as it was. -/
theorem read400_rejects_wrong_root :
    firstStartElement [XmlNode.element "score" [] "" []] ≠ some "museScore"
    ∧ ∃ st1 line, read400 sampleReaders sampleSettings (sampleSession "4.0")
          [XmlNode.element "score" [] "" []] = some (false, st1)
        ∧ st1.score = (sampleSession "4.0").score
        ∧ st1.calls = (sampleSession "4.0").calls
        ∧ st1.e.tracks = (sampleSession "4.0").e.tracks
        ∧ st1.debug = (sampleSession "4.0").debug ++ [line]
        ∧ st1.lastError = (sampleSession "4.0").lastError :=
  ⟨by decide,
   read400_rejects_without_root sampleReaders sampleSettings (sampleSession "4.0")
     [XmlNode.element "score" [] "" []] (by decide)⟩

/-- C1 refuted as stated: reading an empty document, or one whose root tag is "score",
into a session whose last-error string is empty returns false and leaves the
last-error string empty. -/
theorem read400_failure_leaves_lastError_empty :
    (read400 sampleReaders sampleSettings (sampleSession "4.0") []).map
        (fun r => (r.1, r.2.lastError)) = some (false, "")
    ∧ (read400 sampleReaders sampleSettings (sampleSession "4.0")
        [XmlNode.element "score" [] "" []]).map
        (fun r => (r.1, r.2.lastError)) = some (false, "") := by
  decide

/-! ## C8: the result of `readScore400` -/

theorem count_map_updateInstrumentId (p : Pass)
    (hp : ∀ i j, p ≠ Pass.updateInstrumentId i j) (parts : List (Nat × Part)) :
    (parts.flatMap
      (fun ip => (List.range ip.2.instruments).map (Pass.updateInstrumentId ip.1))).count p
      = 0 := by
  rw [List.count_eq_zero]
  intro hmem
  simp only [List.mem_flatMap, List.mem_map] at hmem
  obtain ⟨ip, -, j, -, h⟩ := hmem
  exact hp ip.1 j h.symm

theorem count_map_pass (p : Pass) (f : Nat → Pass) (hp : ∀ i, p ≠ f i) (n : Nat) :
    ((List.range n).map f).count p = 0 := by
  rw [List.count_eq_zero]
  intro hmem
  simp only [List.mem_map] at hmem
  obtain ⟨i, -, h⟩ := hmem
  exact hp i h.symm

/-- Each whole-document pass that is not per part or per staff occurs once. -/
theorem finalizationPasses_once (parts : List Part) (staves : Nat) :
    (finalizationPasses parts staves).count Pass.connectTies = 1
    ∧ (finalizationPasses parts staves).count Pass.relayoutForStyles = 1
    ∧ (finalizationPasses parts staves).count Pass.fixTicks = 1
    ∧ (finalizationPasses parts staves).count Pass.rebuildMidiMapping = 1
    ∧ (finalizationPasses parts staves).count Pass.updateChannel = 1 := by
  unfold finalizationPasses
  refine ⟨?_, ?_, ?_, ?_, ?_⟩ <;>
  · simp only [List.count_append]
    rw [count_map_updateInstrumentId _ (by intro i j; simp),
      count_map_pass _ Pass.updateHarmonyChannels (by intro i; simp),
      count_map_pass _ Pass.updateOttava (by intro i; simp)]
    simp [List.count_cons]

/-- C8. `readScore400` returns exactly when its loop over the child tags does (the
loop fails only through the null dereference of line 314). Once the loop has
consumed the child tags and left the session `st1`, the function returns false if
and only if the stream reports an error. In that case `MScore::lastError` is the
stream's own message for a custom error and otherwise the message carrying line,
column and the last-seen tag, and nothing but `reconnectBrokenConnectors` has run:
the score, and so the file-division field, is as the loop left it. Otherwise the
result is true, the finalization passes have run after `reconnectBrokenConnectors`,
each document-wide pass once, the file-division field is `MScore::division` and
nothing else of the score is changed by this function. -/
theorem readScore400_result (ext : Collaborators) (cfg : MScore) (st : Session)
    (c : XmlNode) :
    (readScore400 ext cfg st c = none
      ↔ scoreLoop ext { st with score := harmonyPlayCompat cfg st.score } c.children = none)
    ∧ ∀ st1 : Session,
      scoreLoop ext { st with score := harmonyPlayCompat cfg st.score } c.children
        = some st1 →
      ∃ ok st2, readScore400 ext cfg st c = some (ok, st2)
        ∧ (ok = false ↔ st1.e.error ≠ .NoError)
        ∧ (st1.e.error ≠ .NoError →
            st2.lastError = (if st1.e.error = .CustomError then st1.e.errorString
                             else "XML read error at line " ++ toString st1.e.lineNumber
                               ++ ", column " ++ toString st1.e.columnNumber ++ ": "
                               ++ st1.e.name)
            ∧ st2.score = st1.score
            ∧ st2.score.fileDivision = st1.score.fileDivision
            ∧ st2.calls = st1.calls ++ [Pass.reconnectBrokenConnectors])
        ∧ (st1.e.error = .NoError →
            ok = true
            ∧ st2.score = { st1.score with fileDivision := cfg.division }
            ∧ st2.score.fileDivision = cfg.division
            ∧ st2.calls = st1.calls ++ [Pass.reconnectBrokenConnectors]
                ++ finalizationPasses st1.score.parts st1.score.staves
            ∧ (finalizationPasses st1.score.parts st1.score.staves).count Pass.connectTies = 1
            ∧ (finalizationPasses st1.score.parts st1.score.staves).count Pass.fixTicks = 1
            ∧ st2.lastError = st1.lastError) := by
  constructor
  · simp [readScore400]
  intro st1 hloop
  refine ⟨(finishScore cfg st1).1, (finishScore cfg st1).2, ?_, ?_, ?_, ?_⟩
  · simp [readScore400, hloop]
  · unfold finishScore
    by_cases h : st1.e.error = .NoError <;> simp [h]
  · intro h
    unfold finishScore
    simp [h, Session.log, positionedMessage]
  · intro h
    unfold finishScore
    have h1 := finalizationPasses_once st1.score.parts st1.score.staves
    simp [h, h1.1, h1.2.2.1]

/-- C8 at two `Score` elements that set the division to 240. The first then breaks
off: the result is false, the diagnostic carries line 7, column 3 and the tag, and
the file-division field keeps 240. The second is well-formed and holds two staves:
the result is true, the last-error string is untouched and the file-division field
is `MScore::division`. -/
theorem readScore400_result_on_sample_streams :
    (readScore400 sampleReaders sampleSettings (sampleSession "4.0") brokenScoreTag).map
      (fun r => (r.1, r.2.lastError, r.2.score.fileDivision, r.2.calls))
      = some (false, "XML read error at line 7, column 3: Part", 240,
          [Pass.reconnectBrokenConnectors])
    ∧ (readScore400 sampleReaders sampleSettings (sampleSession "4.0") twoStaffScoreTag).map
      (fun r => (r.1, r.2.lastError, r.2.score.fileDivision))
      = some (true, "", 480) := by
  constructor
  · have hpos : (scoreLoop sampleReaders
        { sampleSession "4.0" with
          score := harmonyPlayCompat sampleSettings (sampleSession "4.0").score }
        brokenScoreTag.children).map
          (fun s => (s.e.error, s.e.lineNumber, s.e.columnNumber))
        = some (XmlError.NotWellFormedError, (7 : Int), (3 : Int)) := by decide
    have hrest : (scoreLoop sampleReaders
        { sampleSession "4.0" with
          score := harmonyPlayCompat sampleSettings (sampleSession "4.0").score }
        brokenScoreTag.children).map
          (fun s => (s.e.name, s.score.fileDivision, s.calls))
        = some ("Part", (240 : Int), ([] : List Pass)) := by decide
    cases hl : scoreLoop sampleReaders
        { sampleSession "4.0" with
          score := harmonyPlayCompat sampleSettings (sampleSession "4.0").score }
        brokenScoreTag.children with
    | none => simp [hl] at hpos
    | some st1 =>
      simp only [hl, Option.map_some', Option.some.injEq, Prod.mk.injEq] at hpos hrest
      obtain ⟨he, hline, hcol⟩ := hpos
      obtain ⟨hname, hdiv, hcalls⟩ := hrest
      obtain ⟨ok, st2, h, hok, herr, -⟩ :=
        (readScore400_result sampleReaders sampleSettings (sampleSession "4.0")
          brokenScoreTag).2 st1 hl
      have hne : st1.e.error ≠ .NoError := by simp [he]
      obtain ⟨h1, -, h3, h4⟩ := herr hne
      have hf : ok = false := hok.2 hne
      rw [h, Option.map_some', hf, h1, h3, h4, he, hline, hcol, hname, hdiv, hcalls,
        if_neg (by decide)]
      dsimp only
      decide
  · have hfacts : (scoreLoop sampleReaders
        { sampleSession "4.0" with
          score := harmonyPlayCompat sampleSettings (sampleSession "4.0").score }
        twoStaffScoreTag.children).map
          (fun s => (s.e.error, s.lastError, s.score.fileDivision))
        = some (XmlError.NoError, "", (240 : Int)) := by decide
    cases hl : scoreLoop sampleReaders
        { sampleSession "4.0" with
          score := harmonyPlayCompat sampleSettings (sampleSession "4.0").score }
        twoStaffScoreTag.children with
    | none => simp [hl] at hfacts
    | some st1 =>
      simp only [hl, Option.map_some', Option.some.injEq, Prod.mk.injEq] at hfacts
      obtain ⟨he, hle, -⟩ := hfacts
      obtain ⟨ok, st2, h, -, -, hgood⟩ :=
        (readScore400_result sampleReaders sampleSettings (sampleSession "4.0")
          twoStaffScoreTag).2 st1 hl
      obtain ⟨h1, -, h3, -, -, -, h7⟩ := hgood he
      rw [h, Option.map_some', h1, h3, h7, hle]
      rfl

/-! ## Debug lines never feed back into a read -/

theorem placeMeasure_quiet (st : Session) (m : Measure) (e : XmlReader) :
    (placeMeasure st m e).quiet = (placeMeasure st.quiet m e).quiet := by
  unfold placeMeasure
  split
  · rfl
  · split <;> rfl

theorem staff0Tag_quiet (ext : Collaborators) (st : Session) (idx : Int) (c : XmlNode) :
    (staff0Tag ext st idx c).1.quiet = (staff0Tag ext st.quiet idx c).1.quiet
    ∧ (staff0Tag ext st idx c).2 = (staff0Tag ext st.quiet idx c).2 := by
  unfold staff0Tag
  split
  · exact ⟨placeMeasure_quiet _ _ _, rfl⟩
  · split
    · exact ⟨rfl, rfl⟩
    · split
      · exact ⟨rfl, rfl⟩
      · exact ⟨rfl, rfl⟩

theorem staff0Loop_quiet (ext : Collaborators) :
    ∀ (cs : List XmlNode) (st : Session) (idx : Int),
      (staff0Loop ext st idx cs).quiet = (staff0Loop ext st.quiet idx cs).quiet
  | [], _, _ => rfl
  | c :: cs, st, idx => by
    unfold staff0Loop
    by_cases he : st.e.error = .NoError
    · have he' : st.quiet.e.error = .NoError := he
      simp only [he, he', ne_eq, not_true_eq_false, if_false]
      cases c with
      | fault f => rfl
      | element n a t ch =>
        simp only
        have h := staff0Tag_quiet ext (st.enter (.element n a t ch)) idx (.element n a t ch)
        have hq : (st.enter (.element n a t ch)).quiet = st.quiet.enter (.element n a t ch) := rfl
        rw [staff0Loop_quiet ext cs (staff0Tag ext (st.enter _) idx _).1,
          staff0Loop_quiet ext cs (staff0Tag ext (st.quiet.enter _) idx _).1]
        rw [h.1, h.2, hq]
    · have he' : st.quiet.e.error ≠ .NoError := he
      simp only [he, he', ne_eq, not_false_eq_true, if_true]
      rfl

theorem staffNMeasure_quiet (ext : Collaborators) (staff : Int) (w : Walk) (c : XmlNode) :
    (staffNMeasure ext staff w c).map Walk.quiet
      = (staffNMeasure ext staff w.quiet c).map Walk.quiet := by
  obtain ⟨⟨score, e, le, dbg, calls⟩, idx, m⟩ := w
  cases m with
  | none =>
    simp only [staffNMeasure, targetMeasure, Walk.quiet, Session.quiet, Session.log]
    split_ifs with h
    · split <;> rfl
    · rfl
  | some m =>
    simp only [staffNMeasure, targetMeasure, Walk.quiet, Session.quiet, Session.log]
    split_ifs with h
    · split <;> rfl
    · rfl

theorem staffNTag_quiet (ext : Collaborators) (staff : Int) (w : Walk) (c : XmlNode) :
    (staffNTag ext staff w c).map Walk.quiet
      = (staffNTag ext staff w.quiet c).map Walk.quiet := by
  unfold staffNTag
  split
  · exact staffNMeasure_quiet ext staff w c
  · split <;> rfl

theorem staffNLoop_quiet (ext : Collaborators) (staff : Int) :
    ∀ (cs : List XmlNode) (w : Walk),
      (staffNLoop ext staff w cs).map Walk.quiet
        = (staffNLoop ext staff w.quiet cs).map Walk.quiet
  | [], _ => rfl
  | c :: cs, w => by
    unfold staffNLoop
    by_cases he : w.st.e.error = .NoError
    · have he' : w.quiet.st.e.error = .NoError := he
      simp only [he, he', ne_eq, not_true_eq_false, if_false]
      cases c with
      | fault f => rfl
      | element n a t ch =>
        simp only
        have h := staffNTag_quiet ext staff { w with st := w.st.enter (.element n a t ch) }
          (.element n a t ch)
        have hq : Walk.quiet { w with st := w.st.enter (.element n a t ch) }
            = { w.quiet with st := w.quiet.st.enter (.element n a t ch) } := rfl
        rw [hq] at h
        cases h1 : staffNTag ext staff { w with st := w.st.enter (.element n a t ch) }
            (.element n a t ch) with
        | none =>
          rw [h1] at h
          cases h2 : staffNTag ext staff
              { w.quiet with st := w.quiet.st.enter (.element n a t ch) }
              (.element n a t ch) with
          | none => rfl
          | some w2 => simp [h2] at h
        | some w1 =>
          rw [h1] at h
          cases h2 : staffNTag ext staff
              { w.quiet with st := w.quiet.st.enter (.element n a t ch) }
              (.element n a t ch) with
          | none => simp [h2] at h
          | some w2 =>
            simp only [h2, Option.map_some', Option.some.injEq] at h
            simp only
            rw [staffNLoop_quiet ext staff cs w1, staffNLoop_quiet ext staff cs w2, h]
    · have he' : w.quiet.st.e.error ≠ .NoError := he
      simp only [he, he', ne_eq, not_false_eq_true, if_true]
      rfl

theorem readStaff_quiet (ext : Collaborators) (st : Session) (c : XmlNode) :
    (readStaff ext st c).map Session.quiet = (readStaff ext st.quiet c).map Session.quiet := by
  unfold readStaff
  split
  · simp only [Option.map_some']
    rw [staff0Loop_quiet]
    rfl
  · have h := staffNLoop_quiet ext (staffIndex c) c.children
      { st := startStaff st (staffIndex c), measureIdx := 0, measure := st.score.firstMeasure }
    have hq : Walk.quiet
        { st := startStaff st (staffIndex c), measureIdx := 0, measure := st.score.firstMeasure }
        = { st := startStaff st.quiet (staffIndex c), measureIdx := 0,
            measure := st.quiet.score.firstMeasure } := rfl
    rw [hq] at h
    have hcomp : ∀ o : Option Walk, (o.map Walk.st).map Session.quiet
        = (o.map Walk.quiet).map Walk.st := by
      intro o
      cases o <;> rfl
    rw [hcomp, hcomp, h]

/-! ## The reader behind a `Layer` tag, and `int` arithmetic -/

/-- A `Layer` tag with content ends the loop of `readScore400`: with character data in
the `Layer` element the loop ends at the end tag of that element and the
`currentLayer` tag behind it is not read, where an empty `Layer` tag lets the loop go
on; with a child element first, the loop reads the children of that child and ends
at its end tag. The loop of `read400` then reads on to the next end tag, so a second
`Score` element is not read. -/
theorem layer_with_content_ends_score_loop :
    (readScore400 sampleReaders sampleSettings (sampleSession "4.0")
        (.element "Score" [] ""
          [.element "Layer" [("name", "a"), ("mask", "3")] "x" [],
           .element "currentLayer" [] "7" []])).map
        (fun r => (r.1, r.2.score.currentLayer, r.2.score.layer))
      = some (true, 0, [⟨"a", 3⟩])
    ∧ (readScore400 sampleReaders sampleSettings (sampleSession "4.0")
        (.element "Score" [] ""
          [.element "Layer" [("name", "a"), ("mask", "3")] "" [],
           .element "currentLayer" [] "7" []])).map
        (fun r => (r.1, r.2.score.currentLayer, r.2.score.layer))
      = some (true, 7, [⟨"a", 3⟩])
    ∧ (readScore400 sampleReaders sampleSettings (sampleSession "4.0")
        (.element "Score" [] ""
          [.element "Layer" [] ""
             [.element "x" [] "" [.element "currentLayer" [] "3" []],
              .element "currentLayer" [] "5" []],
           .element "currentLayer" [] "7" []])).map
        (fun r => (r.1, r.2.score.currentLayer, r.2.debug))
      = some (true, 3, [])
    ∧ (read400 sampleReaders sampleSettings (sampleSession "4.0")
        [.element "museScore" [] ""
          [.element "Score" [] ""
             [.element "Layer" [] "x" [], .element "currentLayer" [] "7" []],
           .element "Score" [] "" [.element "currentLayer" [] "9" []]]]).map
        (fun r => (r.1, r.2.score.currentLayer, r.2.calls.length))
      = some (true, 0, 6)
    ∧ (read400 sampleReaders sampleSettings (sampleSession "4.0")
        [.element "museScore" [] ""
          [.element "Score" [] ""
             [.element "Layer" [] "" [], .element "currentLayer" [] "7" []],
           .element "Score" [] "" [.element "currentLayer" [] "9" []]]]).map
        (fun r => (r.1, r.2.score.currentLayer, r.2.calls.length))
      = some (true, 9, 12) := by
  decide

/-- The staff index and the track of `readStaff` are results of `int` arithmetic: for
`id="1000000000"` the track `999999999 * 4` wraps to `-294967300`. -/
theorem startStaff_track_wraps :
    staffIndex (staffTag "1000000000" []) = 999999999
    ∧ (startStaff (sampleSession "4.0") (staffIndex (staffTag "1000000000" []))).e.track
        = -294967300
    ∧ staffIndex (staffTag "-2147483648" []) = 2147483647
    ∧ staffIndex (staffTag "1" []) = 0
    ∧ staffIndex (.element "Staff" [] "" []) = 0 := by
  decide

/-! ## C6: unrecognized tags -/

theorem raise_error_of_error (e : XmlReader) (f : Fault) (h : e.error ≠ .NoError) :
    e.raise f = e := by
  simp [XmlReader.raise, h]

/-- What `e.unknown()` leaves of the session: everything but one more debug line, and
the reader itself when the skipped element holds no tokenizer error. -/
theorem unknown_frame (st : Session) (c : XmlNode) :
    (st.unknown c).score = st.score
    ∧ (st.unknown c).lastError = st.lastError
    ∧ (st.unknown c).calls = st.calls
    ∧ (st.unknown c).e.tracks = st.e.tracks
    ∧ (st.unknown c).debug = st.debug ++ ["tag in <" ++ st.e.docName ++ ">: " ++ c.name]
    ∧ (c.firstFault = none → (st.unknown c).e = st.e) := by
  refine ⟨rfl, rfl, rfl, skipCurrentElement_tracks _ _, rfl, ?_⟩
  intro h
  simp [Session.unknown, Session.skip, Session.log, XmlReader.skipCurrentElement, h]

theorem scoreTag_unknown (ext : Collaborators) (st : Session) (c : XmlNode)
    (h : c.name ∉ scoreTags) :
    scoreTag ext st c = some (Session.unknown { st with e := { st.e with track := -1 } } c) := by
  simp only [scoreTags, List.mem_cons, List.mem_singleton, not_or, List.not_mem_nil,
    not_false_eq_true, and_true] at h
  obtain ⟨h1, h2, h3, h4, h5, h6, h7, h8, h9, h10, h11, h12, h13, h14, h15, h16, h17, h18,
    h19, h20, h21, h22, h23, h24, h25, h26, h27, h28, h29, h30, h31, h32, h33, h34, h35,
    h36, h37, h38, h39⟩ := h
  simp only [scoreTag, h1, h2, h3, h4, h5, h6, h7, h8, h9, h10, h11, h12, h13, h14, h15, h16,
    h17, h18, h19, h20, h21, h22, h23, h24, h25, h26, h27, h28, h29, h30, h31, h32, h33, h34,
    h35, h36, h37, h38, h39, if_false, or_self]


theorem readNext_quiet (st : Session) (c : XmlNode) :
    (st.readNext c).quiet = (st.quiet.readNext c).quiet := by
  unfold Session.readNext
  split_ifs
  · rfl
  · split <;> rfl

theorem scoreTag_quiet (ext : Collaborators) (st : Session) (c : XmlNode) :
    (scoreTag ext st c).map Session.quiet = (scoreTag ext st.quiet c).map Session.quiet := by
  obtain ⟨score, e, le, dbg, calls⟩ := st
  by_cases hmem : c.name ∈ scoreTags
  · simp only [scoreTags, List.mem_cons, List.mem_singleton, List.not_mem_nil, or_false] at hmem
    rcases hmem with h | h | h | h | h | h | h | h | h | h | h | h | h | h | h | h | h | h | h | h | h | h | h | h | h | h | h | h | h | h | h | h | h | h | h | h | h | h | h <;>
    · unfold scoreTag
      simp only [h, String.reduceEq, if_false, if_true, or_false, or_true, false_or, true_or]
      first
        | rfl
        | exact readStaff_quiet ext
            { score := score, e := { e with track := -1 }, lastError := le, debug := dbg,
              calls := calls } c
        | exact congrArg some (readNext_quiet _ c)
        | (simp only [Session.quiet]
           split_ifs <;> rfl)
  · rw [scoreTag_unknown ext _ c hmem, scoreTag_unknown ext _ c hmem]
    rfl

theorem scoreLoop_cons (ext : Collaborators) (st : Session) (c : XmlNode) (cs : List XmlNode) :
    scoreLoop ext st (c :: cs)
      = if st.e.error ≠ .NoError then some st
        else
          match scoreTurn ext st c with
          | none => none
          | some (st1, true) => scoreLoop ext st1 cs
          | some (st1, false) => some st1 := by
  rw [scoreLoop] <;> rfl

theorem scoreTurn_element (ext : Collaborators) (st : Session) (n : String)
    (a : List (String × String)) (t : String) (ch : List XmlNode) :
    scoreTurn ext st (.element n a t ch)
      = match scoreTag ext (st.enter (.element n a t ch)) (.element n a t ch) with
        | none => none
        | some st1 =>
          if n = "Layer" then
            if t ≠ "" then (scoreLoop ext st1 ch).map (fun s => (s, false))
            else
              match ch with
              | [] => some (st1, true)
              | .fault _ :: _ => some (st1, false)
              | .element _ _ _ inner :: _ => (scoreLoop ext st1 inner).map (fun s => (s, false))
          else some (st1, true) := by
  rw [scoreTurn] <;> rfl

theorem scoreTurn_fault (ext : Collaborators) (st : Session) (f : Fault) :
    scoreTurn ext st (.fault f) = some (st.raise f, false) := by
  rw [scoreTurn]

theorem quiet_loop_of {ext : Collaborators} {cs : List XmlNode}
    (h : ∀ st : Session,
      (scoreLoop ext st cs).map Session.quiet = (scoreLoop ext st.quiet cs).map Session.quiet)
    {w1 w2 : Session} (hw : w1.quiet = w2.quiet) :
    (scoreLoop ext w1 cs).map Session.quiet = (scoreLoop ext w2 cs).map Session.quiet := by
  rw [h w1, h w2, hw]

/-- Quiet view of the result of a turn. -/
theorem map_map_quiet (o : Option Session) (b : Bool) :
    (o.map (fun s => (s, b))).map (Prod.map Session.quiet id)
      = (o.map Session.quiet).map (fun s => (s, b)) := by
  cases o <;> rfl

theorem scoreTurn_congr_of (ext : Collaborators) (n : String) (a : List (String × String))
    (t : String) (ch : List XmlNode) (s1 s2 : Session)
    (hch : ∀ st : Session,
      (scoreLoop ext st ch).map Session.quiet = (scoreLoop ext st.quiet ch).map Session.quiet)
    (hin : ∀ n1 a1 t1 inner more, ch = .element n1 a1 t1 inner :: more → ∀ st : Session,
      (scoreLoop ext st inner).map Session.quiet
        = (scoreLoop ext st.quiet inner).map Session.quiet)
    (htag : (scoreTag ext (s1.enter (.element n a t ch)) (.element n a t ch)).map Session.quiet
      = (scoreTag ext (s2.enter (.element n a t ch)) (.element n a t ch)).map Session.quiet) :
    (scoreTurn ext s1 (.element n a t ch)).map (Prod.map Session.quiet id)
      = (scoreTurn ext s2 (.element n a t ch)).map (Prod.map Session.quiet id) := by
  rw [scoreTurn_element, scoreTurn_element]
  cases h1 : scoreTag ext (s1.enter (.element n a t ch)) (.element n a t ch) with
  | none =>
    rw [h1] at htag
    cases h2 : scoreTag ext (s2.enter (.element n a t ch)) (.element n a t ch) with
    | none => rfl
    | some w2 => simp [h2] at htag
  | some w1 =>
    rw [h1] at htag
    cases h2 : scoreTag ext (s2.enter (.element n a t ch)) (.element n a t ch) with
    | none => simp [h2] at htag
    | some w2 =>
      simp only [h2, Option.map_some', Option.some.injEq] at htag
      simp only
      by_cases hl : n = "Layer"
      · simp only [hl, if_true]
        by_cases ht : t = ""
        · simp only [ht, ne_eq, not_true_eq_false, if_false]
          cases ch with
          | nil =>
            simp only [Option.map_some', Prod.map, id, htag]
          | cons c1 more =>
            cases c1 with
            | fault f => simp only [Option.map_some', Prod.map, id, htag]
            | element n1 a1 t1 inner =>
              simp only
              rw [map_map_quiet, map_map_quiet,
                quiet_loop_of (hin n1 a1 t1 inner more rfl) htag]
        · simp only [ht, ne_eq, not_false_eq_true, if_true]
          rw [map_map_quiet, map_map_quiet, quiet_loop_of hch htag]
      · simp only [hl, if_false, Option.map_some', Prod.map, id, htag]

theorem sizeOf_children_lt (n : String) (a : List (String × String)) (t : String)
    (ch cs : List XmlNode) : sizeOf ch < sizeOf (XmlNode.element n a t ch :: cs) := by
  simp only [List.cons.sizeOf_spec, XmlNode.element.sizeOf_spec]
  omega

theorem sizeOf_inner_lt (n : String) (a : List (String × String)) (t : String)
    (n1 : String) (a1 : List (String × String)) (t1 : String)
    (inner more cs : List XmlNode) :
    sizeOf inner < sizeOf (XmlNode.element n a t (.element n1 a1 t1 inner :: more) :: cs) := by
  simp only [List.cons.sizeOf_spec, XmlNode.element.sizeOf_spec]
  omega

theorem scoreLoop_quiet_aux (ext : Collaborators) :
    ∀ (k : Nat) (cs : List XmlNode), sizeOf cs ≤ k → ∀ st : Session,
      (scoreLoop ext st cs).map Session.quiet = (scoreLoop ext st.quiet cs).map Session.quiet
  | _, [], _, _ => rfl
  | 0, c :: cs, hk, _ => by
    simp only [List.cons.sizeOf_spec] at hk
    omega
  | k + 1, c :: cs, hk, st => by
    have hcs : ∀ st : Session,
        (scoreLoop ext st cs).map Session.quiet
          = (scoreLoop ext st.quiet cs).map Session.quiet :=
      scoreLoop_quiet_aux ext k cs (by
        simp only [List.cons.sizeOf_spec] at hk
        omega)
    rw [scoreLoop_cons, scoreLoop_cons]
    by_cases he : st.e.error = .NoError
    · have he' : st.quiet.e.error = .NoError := he
      simp only [he, he', ne_eq, not_true_eq_false, if_false]
      have hturn : (scoreTurn ext st c).map (Prod.map Session.quiet id)
          = (scoreTurn ext st.quiet c).map (Prod.map Session.quiet id) := by
        cases c with
        | fault f => rfl
        | element n a t ch =>
          refine scoreTurn_congr_of ext n a t ch st st.quiet ?_ ?_ ?_
          · exact scoreLoop_quiet_aux ext k ch (by
              have := sizeOf_children_lt n a t ch cs
              omega)
          · intro n1 a1 t1 inner more hch
            exact scoreLoop_quiet_aux ext k inner (by
              subst hch
              have := sizeOf_inner_lt n a t n1 a1 t1 inner more cs
              omega)
          · exact scoreTag_quiet ext (st.enter (.element n a t ch)) (.element n a t ch)
      cases h1 : scoreTurn ext st c with
      | none =>
        rw [h1] at hturn
        cases h2 : scoreTurn ext st.quiet c with
        | none => rfl
        | some w2 => simp [h2] at hturn
      | some w1 =>
        rw [h1] at hturn
        cases h2 : scoreTurn ext st.quiet c with
        | none => simp [h2] at hturn
        | some w2 =>
          obtain ⟨x1, b1⟩ := w1
          obtain ⟨x2, b2⟩ := w2
          simp only [h2, Option.map_some', Option.some.injEq, Prod.map, id, Prod.mk.injEq]
            at hturn
          obtain ⟨hx, rfl⟩ := hturn
          cases b1
          · simp only [Option.map_some', hx]
          · simp only
            rw [hcs x1, hcs x2, hx]
    · have he' : st.quiet.e.error ≠ .NoError := he
      simp only [he, he', ne_eq, not_false_eq_true, if_true]
      rfl

theorem scoreLoop_quiet (ext : Collaborators) (cs : List XmlNode) (st : Session) :
    (scoreLoop ext st cs).map Session.quiet = (scoreLoop ext st.quiet cs).map Session.quiet :=
  scoreLoop_quiet_aux ext (sizeOf cs) cs (le_refl _) st

theorem scoreTurn_congr (ext : Collaborators) (n : String) (a : List (String × String))
    (t : String) (ch : List XmlNode) (s1 s2 : Session)
    (htag : (scoreTag ext (s1.enter (.element n a t ch)) (.element n a t ch)).map Session.quiet
      = (scoreTag ext (s2.enter (.element n a t ch)) (.element n a t ch)).map Session.quiet) :
    (scoreTurn ext s1 (.element n a t ch)).map (Prod.map Session.quiet id)
      = (scoreTurn ext s2 (.element n a t ch)).map (Prod.map Session.quiet id) :=
  scoreTurn_congr_of ext n a t ch s1 s2 (scoreLoop_quiet ext ch)
    (fun _ _ _ inner _ _ => scoreLoop_quiet ext inner) htag

theorem scoreLoop_cons_congr (ext : Collaborators) (c : XmlNode) (cs : List XmlNode)
    (s1 s2 : Session) (h1 : s1.e.error = .NoError) (h2 : s2.e.error = .NoError)
    (hturn : (scoreTurn ext s1 c).map (Prod.map Session.quiet id)
      = (scoreTurn ext s2 c).map (Prod.map Session.quiet id)) :
    (scoreLoop ext s1 (c :: cs)).map Session.quiet
      = (scoreLoop ext s2 (c :: cs)).map Session.quiet := by
  rw [scoreLoop_cons, scoreLoop_cons]
  simp only [h1, h2, ne_eq, not_true_eq_false, if_false]
  cases k1 : scoreTurn ext s1 c with
  | none =>
    rw [k1] at hturn
    cases k2 : scoreTurn ext s2 c with
    | none => rfl
    | some w2 => simp [k2] at hturn
  | some w1 =>
    rw [k1] at hturn
    cases k2 : scoreTurn ext s2 c with
    | none => simp [k2] at hturn
    | some w2 =>
      obtain ⟨x1, b1⟩ := w1
      obtain ⟨x2, b2⟩ := w2
      simp only [k2, Option.map_some', Option.some.injEq, Prod.map, id, Prod.mk.injEq]
        at hturn
      obtain ⟨hx, rfl⟩ := hturn
      cases b1
      · simp only [Option.map_some', hx]
      · simp only
        rw [scoreLoop_quiet ext cs x1, scoreLoop_quiet ext cs x2, hx]

theorem scoreTurn_unknown (ext : Collaborators) (st : Session) (n : String)
    (a : List (String × String)) (t : String) (ch : List XmlNode)
    (hu : (XmlNode.element n a t ch).name ∉ scoreTags) :
    scoreTurn ext st (.element n a t ch)
      = some (Session.unknown { st.enter (.element n a t ch) with
                e := { (st.enter (.element n a t ch)).e with track := -1 } }
              (.element n a t ch), true) := by
  have hl : n ≠ "Layer" := by
    intro h
    apply hu
    rw [h]
    exact (by decide : "Layer" ∈ scoreTags)
  rw [scoreTurn_element, scoreTag_unknown ext _ _ hu]
  simp only [hl, if_false]


theorem agree_of_quiet_eq {a b : Session} (h : a.quiet = b.quiet) : a.Agree b := by
  obtain ⟨s1, e1, l1, d1, c1⟩ := a
  obtain ⟨s2, e2, l2, d2, c2⟩ := b
  simp only [Session.quiet, Session.mk.injEq] at h
  obtain ⟨rfl, rfl, rfl, -, rfl⟩ := h
  exact ⟨rfl, rfl, rfl, rfl, fun _ => rfl⟩

theorem agreeOutcome_of_quiet_eq {a b : Option Session}
    (h : a.map Session.quiet = b.map Session.quiet) : agreeOutcome a b := by
  cases a <;> cases b <;> simp only [Option.map_some', Option.map_none', Option.some.injEq,
    reduceCtorEq] at h
  · trivial
  · exact agree_of_quiet_eq h

theorem agreeOutcome_refl (a : Option Session) : agreeOutcome a a := by
  cases a
  · trivial
  · exact ⟨rfl, rfl, rfl, rfl, fun _ => rfl⟩

theorem raise_of_noError (e : XmlReader) (f : Fault) (h : e.error = .NoError) :
    e.raise f = { e with error := f.kind.toError, errorString := f.msg,
                         lineNumber := f.line, columnNumber := f.col, name := f.name } := by
  simp [XmlReader.raise, h]

theorem scoreTag_track (ext : Collaborators) (st : Session) (c : XmlNode) :
    scoreTag ext { st with e := { st.e with track := -1 } } c = scoreTag ext st c := rfl

/-- An unrecognized, well-formed tag in front of a list of child tags changes
nothing the rest of the loop or the caller looks at. -/
theorem scoreLoop_unknown_head (ext : Collaborators) (n : String)
    (a : List (String × String)) (t : String) (ch : List XmlNode)
    (hu : (XmlNode.element n a t ch).name ∉ scoreTags)
    (hf : (XmlNode.element n a t ch).firstFault = none) (st : Session) (post : List XmlNode) :
    agreeOutcome (scoreLoop ext st (.element n a t ch :: post)) (scoreLoop ext st post) := by
  by_cases he : st.e.error = .NoError
  · have hstep : scoreLoop ext st (.element n a t ch :: post)
        = scoreLoop ext
            (Session.unknown { st.enter (.element n a t ch) with
              e := { (st.enter (.element n a t ch)).e with track := -1 } } (.element n a t ch))
            post := by
      rw [scoreLoop_cons]
      simp only [he, ne_eq, not_true_eq_false, if_false]
      rw [scoreTurn_unknown ext _ _ _ _ _ hu]
    rw [hstep]
    have hun := unknown_frame { st.enter (.element n a t ch) with
      e := { (st.enter (.element n a t ch)).e with track := -1 } } (.element n a t ch)
    obtain ⟨h1, h2, h3, -, -, h6⟩ := hun
    replace h6 := h6 hf
    generalize Session.unknown { st.enter (.element n a t ch) with
      e := { (st.enter (.element n a t ch)).e with track := -1 } } (.element n a t ch) = su
      at h1 h2 h3 h6
    have herr : su.e.error = .NoError := by rw [h6]; exact he
    cases post with
    | nil =>
      refine ⟨h1, h2, h3, ?_, ?_⟩
      · rw [h6]; rfl
      · intro hne; exact absurd herr hne
    | cons c cs =>
      cases c with
      | fault f =>
        rw [scoreLoop_cons, scoreLoop_cons, scoreTurn_fault, scoreTurn_fault]
        simp only [he, herr, ne_eq, not_true_eq_false, if_false, Session.raise]
        rw [raise_of_noError _ _ herr, raise_of_noError _ _ he]
        have h6' : su.e = { st.e with name := n, track := -1 } := h6
        refine ⟨h1, h2, h3, ?_, ?_⟩
        · simp only [h6']
        · intro _
          rfl
      | element n2 a2 t2 ch2 =>
        apply agreeOutcome_of_quiet_eq
        have hq : (su.enter (.element n2 a2 t2 ch2)).quiet
            = { (st.enter (.element n2 a2 t2 ch2)).quiet with
                e := { (st.enter (.element n2 a2 t2 ch2)).e with track := -1 } } := by
          simp only [Session.quiet, Session.enter, h1, h2, h3, h6]
        have hA := scoreTag_quiet ext (su.enter (.element n2 a2 t2 ch2)) (.element n2 a2 t2 ch2)
        have hB := scoreTag_quiet ext (st.enter (.element n2 a2 t2 ch2)) (.element n2 a2 t2 ch2)
        rw [hq] at hA
        have hC : scoreTag ext
            { (st.enter (.element n2 a2 t2 ch2)).quiet with
              e := { (st.enter (.element n2 a2 t2 ch2)).e with track := -1 } }
            (.element n2 a2 t2 ch2)
            = scoreTag ext (st.enter (.element n2 a2 t2 ch2)).quiet (.element n2 a2 t2 ch2) :=
          scoreTag_track ext (st.enter (.element n2 a2 t2 ch2)).quiet (.element n2 a2 t2 ch2)
        rw [hC, ← hB] at hA
        exact scoreLoop_cons_congr ext _ cs su st herr he
          (scoreTurn_congr ext n2 a2 t2 ch2 su st hA)
  · have h1 : scoreLoop ext st (.element n a t ch :: post) = some st := by
      rw [scoreLoop_cons]
      simp [he]
    have h2 : scoreLoop ext st post = some st := by
      cases post with
      | nil => rfl
      | cons c cs =>
        rw [scoreLoop_cons]
        simp [he]
    rw [h1, h2]
    exact ⟨rfl, rfl, rfl, rfl, fun _ => rfl⟩

/-- The same, with the unrecognized tag anywhere among the child tags. -/
theorem scoreLoop_unknown_anywhere (ext : Collaborators) (n : String)
    (a : List (String × String)) (t : String) (ch : List XmlNode)
    (hu : (XmlNode.element n a t ch).name ∉ scoreTags)
    (hf : (XmlNode.element n a t ch).firstFault = none) (post : List XmlNode) :
    ∀ (pre : List XmlNode) (st : Session),
      agreeOutcome (scoreLoop ext st (pre ++ .element n a t ch :: post))
        (scoreLoop ext st (pre ++ post))
  | [], st => scoreLoop_unknown_head ext n a t ch hu hf st post
  | p :: pre, st => by
    simp only [List.cons_append]
    rw [scoreLoop_cons, scoreLoop_cons]
    by_cases he : st.e.error = .NoError
    · simp only [he, ne_eq, not_true_eq_false, if_false]
      cases scoreTurn ext st p with
      | none => trivial
      | some w =>
        obtain ⟨st1, b⟩ := w
        cases b
        · exact agreeOutcome_refl _
        · exact scoreLoop_unknown_anywhere ext n a t ch hu hf post pre st1
    · simp only [he, ne_eq, not_false_eq_true, if_true]
      exact agreeOutcome_refl _

theorem finishScore_agree (cfg : MScore) {a b : Session} (h : a.Agree b) :
    outcomeView (finishScore cfg a) = outcomeView (finishScore cfg b) := by
  obtain ⟨h1, h2, h3, h4, h5⟩ := h
  have herr : a.e.error = b.e.error := by
    have h := congrArg XmlReader.error h4
    exact h
  have hes : a.e.errorString = b.e.errorString := by
    have h := congrArg XmlReader.errorString h4
    exact h
  have hl : a.e.lineNumber = b.e.lineNumber := by
    have h := congrArg XmlReader.lineNumber h4
    exact h
  have hc : a.e.columnNumber = b.e.columnNumber := by
    have h := congrArg XmlReader.columnNumber h4
    exact h
  have ht : a.e.tracks = b.e.tracks := by
    have h := congrArg XmlReader.tracks h4
    exact h
  unfold finishScore outcomeView
  by_cases he : a.e.error = .NoError
  · have he' : b.e.error = .NoError := herr ▸ he
    simp [he, he', h1, h2, h3, ht]
  · have he' : b.e.error ≠ .NoError := herr ▸ he
    have hn := h5 he
    simp [he, he', h1, h3, ht, Session.log, positionedMessage, herr, hes, hl, hc, hn]


/-- C6. A tag whose name the score section does not name is consumed by
`e.unknown()`: the score (metadata, scalar settings, layers, parts, spanner pool,
measure sequence), the track remap, the last-error string and the passes run are
unchanged, and when the tag itself is well-formed the reader is left as it was
apart from the track reset every child of the score section gets. The same holds
for a tag the loop of a `Staff` section does not name, for staff 0 and for the
other staves. Such a tag does not by itself make `readScore400` fail: with a
well-formed unrecognized tag put anywhere among the children of the `Score`
element, the result, the score, the last-error string, the passes run, the track
remap and the stream error are the same as without it. -/
theorem unrecognized_tag_is_consumed_without_effect (ext : Collaborators) (cfg : MScore)
    (tag : String) (a : List (String × String)) (t : String) (ch : List XmlNode) :
    (tag ∉ scoreTags → ∀ st : Session,
      ∃ st1, scoreTag ext st (.element tag a t ch) = some st1
        ∧ st1.score = st.score ∧ st1.lastError = st.lastError ∧ st1.calls = st.calls
        ∧ st1.e.tracks = st.e.tracks
        ∧ ((XmlNode.element tag a t ch).firstFault = none →
            st1.e = { st.e with track := -1 }))
    ∧ (tag ∉ staff0Tags → ∀ (st : Session) (idx : Int),
        (staff0Tag ext st idx (.element tag a t ch)).2 = idx
        ∧ (staff0Tag ext st idx (.element tag a t ch)).1.score = st.score
        ∧ (staff0Tag ext st idx (.element tag a t ch)).1.lastError = st.lastError
        ∧ (staff0Tag ext st idx (.element tag a t ch)).1.calls = st.calls
        ∧ (staff0Tag ext st idx (.element tag a t ch)).1.e.tracks = st.e.tracks
        ∧ ((XmlNode.element tag a t ch).firstFault = none →
            (staff0Tag ext st idx (.element tag a t ch)).1.e = st.e))
    ∧ (tag ∉ staffNTags → ∀ (staff : Int) (w : Walk),
        ∃ w1, staffNTag ext staff w (.element tag a t ch) = some w1
          ∧ w1.measure = w.measure ∧ w1.measureIdx = w.measureIdx
          ∧ w1.st.score = w.st.score ∧ w1.st.lastError = w.st.lastError
          ∧ w1.st.calls = w.st.calls ∧ w1.st.e.tracks = w.st.e.tracks
          ∧ ((XmlNode.element tag a t ch).firstFault = none → w1.st.e = w.st.e))
    ∧ (tag ∉ scoreTags → (XmlNode.element tag a t ch).firstFault = none →
        ∀ (st : Session) (name : String) (attrs : List (String × String)) (text : String)
          (pre post : List XmlNode),
          (readScore400 ext cfg st
              (.element name attrs text (pre ++ .element tag a t ch :: post))).map outcomeView
            = (readScore400 ext cfg st (.element name attrs text (pre ++ post))).map
                outcomeView) := by
  refine ⟨?_, ?_, ?_, ?_⟩
  · intro h st
    obtain ⟨h1, h2, h3, h4, -, h6⟩ :=
      unknown_frame { st with e := { st.e with track := -1 } } (.element tag a t ch)
    exact ⟨_, scoreTag_unknown ext st _ h, h1, h2, h3, h4, h6⟩
  · intro h st idx
    simp only [staff0Tags, List.mem_cons, List.mem_singleton, not_or, List.not_mem_nil,
      not_false_eq_true, and_true] at h
    obtain ⟨h1, h2, h3, h4, h5, h6⟩ := h
    have hs : staff0Tag ext st idx (.element tag a t ch)
        = (st.unknown (.element tag a t ch), idx) := by
      simp [staff0Tag, XmlNode.name, h1, h2, h3, h4, h5, h6]
    rw [hs]
    obtain ⟨k1, k2, k3, k4, -, k6⟩ := unknown_frame st (.element tag a t ch)
    exact ⟨rfl, k1, k2, k3, k4, k6⟩
  · intro h staff w
    simp only [staffNTags, List.mem_cons, List.mem_singleton, not_or, List.not_mem_nil,
      not_false_eq_true, and_true] at h
    obtain ⟨h1, h2⟩ := h
    have hs : staffNTag ext staff w (.element tag a t ch)
        = some { w with st := w.st.unknown (.element tag a t ch) } := by
      simp [staffNTag, XmlNode.name, h1, h2]
    obtain ⟨k1, k2, k3, k4, -, k6⟩ := unknown_frame w.st (.element tag a t ch)
    exact ⟨_, hs, rfl, rfl, k1, k2, k3, k4, k6⟩
  · intro h hf st name attrs text pre post
    have hag := scoreLoop_unknown_anywhere ext tag a t ch h hf post pre
      { st with score := harmonyPlayCompat cfg st.score }
    unfold readScore400
    simp only [XmlNode.children]
    cases h1 : scoreLoop ext { st with score := harmonyPlayCompat cfg st.score }
        (pre ++ .element tag a t ch :: post) with
    | none =>
      cases h2 : scoreLoop ext { st with score := harmonyPlayCompat cfg st.score }
          (pre ++ post) with
      | none => rfl
      | some s2 => simp [h1, h2, agreeOutcome] at hag
    | some s1 =>
      cases h2 : scoreLoop ext { st with score := harmonyPlayCompat cfg st.score }
          (pre ++ post) with
      | none => simp [h1, h2, agreeOutcome] at hag
      | some s2 =>
        rw [h1, h2] at hag
        simp only [Option.map_some']
        rw [finishScore_agree cfg hag]

/-- C6 at a tag named "Foo" holding a child, put between the `Division` tag and the
staves of a `Score` element: the read gives the same result and the same document
as without it. -/
theorem unrecognized_tag_foo_changes_nothing :
    "Foo" ∉ scoreTags
    ∧ (readScore400 sampleReaders sampleSettings (sampleSession "4.0")
        (.element "Score" [] ""
          ([divisionTag "240"] ++ .element "Foo" [("a", "1")] "text" [plainMeasureTag "x"]
            :: [staffTag "1" [measureTag "3" "4" "a", plainMeasureTag "b"]]))).map outcomeView
      = (readScore400 sampleReaders sampleSettings (sampleSession "4.0")
        (.element "Score" [] ""
          ([divisionTag "240"]
            ++ [staffTag "1" [measureTag "3" "4" "a", plainMeasureTag "b"]]))).map
          outcomeView :=
  ⟨by decide,
   (unrecognized_tag_is_consumed_without_effect sampleReaders sampleSettings "Foo"
      [("a", "1")] "text" [plainMeasureTag "x"]).2.2.2 (by decide) (by decide)
      (sampleSession "4.0") "Score" [] "" [divisionTag "240"]
      [staffTag "1" [measureTag "3" "4" "a", plainMeasureTag "b"]]⟩

/-! ## The pool and the sequence -/

theorem measure_addNew_old (s : Score) (m : Measure) {j : Nat} (h : j < s.pool.length) :
    (s.addNew m).measure j = s.measure j := by
  simp [Score.measure, Score.addNew, List.getD_eq_getElem?_getD, List.getElem?_append_left h]

theorem measure_addNew_new (s : Score) (m : Measure) :
    (s.addNew m).measure s.pool.length = m := by
  simp [Score.measure, Score.addNew, List.getD_eq_getElem?_getD]

theorem measure_allocate_old (s : Score) (m : Measure) {j : Nat} (h : j < s.pool.length) :
    (s.allocate m).measure j = s.measure j := by
  simp [Score.measure, Score.allocate, List.getD_eq_getElem?_getD, List.getElem?_append_left h]

theorem measure_update_same (s : Score) (m : Measure) {j : Nat} (h : j < s.pool.length) :
    (s.update j m).measure j = m := by
  simp [Score.measure, Score.update, List.getD_eq_getElem?_getD, List.getElem?_set, h]

theorem measure_update_other (s : Score) (m : Measure) {i j : Nat} (h : i ≠ j) :
    (s.update i m).measure j = s.measure j := by
  simp [Score.measure, Score.update, List.getD_eq_getElem?_getD, List.getElem?_set, h]

theorem raise_lastMeasure (e : XmlReader) (f : Fault) :
    (e.raise f).lastMeasure = e.lastMeasure := by
  unfold XmlReader.raise
  split <;> rfl

theorem raise_tick (e : XmlReader) (f : Fault) : (e.raise f).tick = e.tick := by
  unfold XmlReader.raise
  split <;> rfl

theorem skipCurrentElement_lastMeasure (e : XmlReader) (c : XmlNode) :
    (e.skipCurrentElement c).lastMeasure = e.lastMeasure := by
  unfold XmlReader.skipCurrentElement
  split
  · exact raise_lastMeasure e _
  · rfl

theorem readElementText_lastMeasure (e : XmlReader) (c : XmlNode) :
    (e.readElementText c).2.lastMeasure = e.lastMeasure := by
  unfold XmlReader.readElementText
  split
  · rfl
  · split
    · rfl
    · exact raise_lastMeasure e _
    · exact raise_lastMeasure e _

theorem readAndCheck_kind (ext : Collaborators) (staff : Int) (c : XmlNode) (m : Measure)
    (e : XmlReader) : (readAndCheck ext staff c m e).1.isMeasure = true := by
  simp [readAndCheck, Measure.isMeasure]

theorem readAndCheck_lastMeasure (ext : Collaborators) (hk : KeepsLastMeasure ext)
    (staff : Int) (c : XmlNode) (m : Measure) (e : XmlReader) :
    (readAndCheck ext staff c m e).2.lastMeasure = e.lastMeasure :=
  hk.1 c staff m e

theorem lastReal_congr (s s1 : Score) (hm : s1.measures = s.measures)
    (hk : ∀ j ∈ s.measures, (s1.measure j).isMeasure = (s.measure j).isMeasure) :
    s1.lastReal = s.lastReal := by
  unfold Score.lastReal
  rw [hm]
  congr 1
  apply List.filter_congr
  intro j hj
  exact hk j hj

theorem lastReal_addNew (s : Score) (m : Measure)
    (hp : ∀ j ∈ s.measures, j < s.pool.length) :
    (s.addNew m).lastReal = if m.isMeasure then some s.pool.length else s.lastReal := by
  unfold Score.lastReal
  have hmeas : (s.addNew m).measures = s.measures ++ [s.pool.length] := rfl
  rw [hmeas, List.filter_append]
  have h1 : s.measures.filter (fun j => ((s.addNew m).measure j).isMeasure)
      = s.measures.filter (fun j => (s.measure j).isMeasure) := by
    apply List.filter_congr
    intro j hj
    rw [measure_addNew_old s m (hp j hj)]
  rw [h1]
  by_cases hm : m.isMeasure = true
  · simp [List.filter_cons, measure_addNew_new, hm]
  · simp [List.filter_cons, measure_addNew_new, hm]


theorem toError_ne (k : FaultKind) : k.toError ≠ .NoError := by
  cases k <;> simp [FaultKind.toError]

theorem raise_error_ne (e : XmlReader) (f : Fault) (h : e.error = .NoError) :
    (e.raise f).error ≠ .NoError := by
  rw [raise_of_noError e f h]
  exact toError_ne f.kind

/-! ## Staff 0: the last-measure reference follows the sequence -/

theorem placeMeasure_linked (ext : Collaborators) (hk : KeepsLastMeasure ext) (st : Session)
    (c : XmlNode) (m : Measure) (hl : st.Linked) :
    (placeMeasure st (readAndCheck ext 0 c m st.e).1 (readAndCheck ext 0 c m st.e).2).Linked := by
  obtain ⟨hp, hlast⟩ := hl
  have hkind := readAndCheck_kind ext 0 c m st.e
  have hlm := readAndCheck_lastMeasure ext hk 0 c m st.e
  unfold placeMeasure
  split
  · constructor
    · intro j hj
      simp only [Score.addNew, List.mem_append, List.mem_singleton, List.length_append,
        List.length_singleton] at hj ⊢
      rcases hj with hj | hj
      · have := hp j hj
        omega
      · omega
    · simp only [lastReal_addNew _ _ hp, hkind, if_true]
  · split
    · rename_i m1 hm1
      constructor
      · intro j hj
        have := hp j hj
        simp only [Score.allocate, Score.update, List.length_append, List.length_set,
          List.length_singleton]
        omega
      · show (readAndCheck ext 0 c m st.e).2.lastMeasure = _
        rw [hlm, hlast]
        symm
        apply lastReal_congr
        · rfl
        · intro j hj
          have hj' : j < (st.score.update m1
              { st.score.measure m1 with mmRest := some st.score.pool.length }).pool.length := by
            simp only [Score.update, List.length_set]
            exact hp j hj
          rw [measure_allocate_old _ _ hj']
          by_cases hjm : m1 = j
          · subst hjm
            rw [measure_update_same _ _ (hp m1 hj)]
            rfl
          · rw [measure_update_other _ _ hjm]
    · constructor
      · intro j hj
        have := hp j hj
        simp only [Score.allocate, List.length_append, List.length_singleton]
        omega
      · show (readAndCheck ext 0 c m st.e).2.lastMeasure = _
        rw [hlm, hlast]
        symm
        apply lastReal_congr
        · rfl
        · intro j hj
          rw [measure_allocate_old _ _ (hp j hj)]

theorem staff0Tag_linked (ext : Collaborators) (hk : KeepsLastMeasure ext) (st : Session)
    (idx : Int) (c : XmlNode) (hl : st.Linked) : (staff0Tag ext st idx c).1.Linked := by
  unfold staff0Tag
  split
  · exact placeMeasure_linked ext hk
      { st with e := { st.e with currentMeasureIndex := idx } } c _ hl
  · split
    · rename_i hbox
      obtain ⟨hp, hlast⟩ := hl
      constructor
      · intro j hj
        simp only [Score.addNew, List.mem_append, List.mem_singleton, List.length_append,
          List.length_singleton] at hj ⊢
        rcases hj with hj | hj
        · have := hp j hj
          omega
        · omega
      · have hnot : Measure.isMeasure
            { (ext.boxRead c.name c st.e).1 with
              kind := c.name, tick := (ext.boxRead c.name c st.e).2.tick } = false := by
          rcases hbox with h | h | h | h <;> simp [Measure.isMeasure, h]
        simp only [lastReal_addNew _ _ hp, hnot]
        rw [hk.2, hlast]
        rfl
    · split
      · obtain ⟨hp, hlast⟩ := hl
        exact ⟨hp, by
          show (st.e.readInt c).2.lastMeasure = st.score.lastReal
          rw [← hlast]
          exact readElementText_lastMeasure st.e c⟩
      · obtain ⟨hp, hlast⟩ := hl
        exact ⟨hp, by
          show (st.e.skipCurrentElement c).lastMeasure = st.score.lastReal
          rw [skipCurrentElement_lastMeasure, ← hlast]⟩

theorem staff0Loop_linked (ext : Collaborators) (hk : KeepsLastMeasure ext) :
    ∀ (cs : List XmlNode) (st : Session) (idx : Int), st.Linked →
      (staff0Loop ext st idx cs).Linked
  | [], _, _, hl => hl
  | c :: cs, st, idx, hl => by
    unfold staff0Loop
    split
    · exact hl
    · cases c with
      | fault f => exact ⟨hl.1, by
          show (st.e.raise f).lastMeasure = _
          rw [raise_lastMeasure]
          exact hl.2⟩
      | element n a t ch =>
        exact staff0Loop_linked ext hk cs _ _
          (staff0Tag_linked ext hk (st.enter (.element n a t ch)) idx _ hl)

/-- The staff-0 loop over a list of tags is the loop over its first part followed by
the loop over the rest. -/
theorem staff0Loop_append (ext : Collaborators) (rest : List XmlNode) :
    ∀ (pre : List XmlNode) (st : Session) (idx : Int),
      ∃ idx1, staff0Loop ext st idx (pre ++ rest)
        = staff0Loop ext (staff0Loop ext st idx pre) idx1 rest
  | [], st, idx => ⟨idx, rfl⟩
  | c :: cs, st, idx => by
    by_cases he : st.e.error = .NoError
    · cases c with
      | fault f =>
        refine ⟨idx, ?_⟩
        have h1 : staff0Loop ext st idx (.fault f :: cs) = st.raise f := by
          unfold staff0Loop
          simp [he]
        have h2 : staff0Loop ext st idx (.fault f :: cs ++ rest) = st.raise f := by
          simp only [List.cons_append]
          unfold staff0Loop
          simp [he]
        rw [h1, h2]
        have he2 : (st.raise f).e.error ≠ .NoError := raise_error_ne st.e f he
        cases rest with
        | nil => rfl
        | cons r rs =>
          unfold staff0Loop
          simp [he2]
      | element n a t ch =>
        obtain ⟨idx1, h⟩ := staff0Loop_append ext rest cs
          (staff0Tag ext (st.enter (.element n a t ch)) idx (.element n a t ch)).1
          (staff0Tag ext (st.enter (.element n a t ch)) idx (.element n a t ch)).2
        refine ⟨idx1, ?_⟩
        simp only [List.cons_append]
        conv_lhs => unfold staff0Loop
        conv_rhs => rw [staff0Loop]
        simp only [he, ne_eq, not_true_eq_false, if_false]
        exact h
    · refine ⟨idx, ?_⟩
      have h1 : ∀ x l, staff0Loop ext st idx (x :: l) = st := by
        intro x l
        unfold staff0Loop
        simp [he]
      simp only [List.cons_append]
      rw [h1, h1]
      cases rest with
      | nil => rfl
      | cons r rs => rw [h1]

/-! ## C9: the inherited time signature -/

theorem newMeasure_inherits (st : Session) (hl : st.Linked) :
    (newMeasure st).timesig = st.score.inheritedTimesig
    ∧ (newMeasure st).ticks = st.score.inheritedTimesig
    ∧ (newMeasure st).tick = st.e.tick := by
  unfold newMeasure Score.inheritedTimesig
  rw [← hl.2]
  exact ⟨rfl, rfl, rfl⟩

/-- C9. Let the staff-0 loop start in a session whose last-measure reference is the
most recently appended real measure (as in a new document, where there is none),
with content readers that do not reassign that reference. Then for every `Measure`
tag `c` of the stream, met after the tags `pre`: the measure created for `c` has,
before its content is read, both its time signature and its duration equal to the
time signature of the most recently appended real measure, and to 4/4 when no
measure has been appended yet; this is the measure handed to the content reader;
and when the content leaves the time signature alone and the measure is not a
multi-measure rest, the measure appended for `c` carries that inherited time
signature. -/
theorem staff0_measure_inherits_timesig (ext : Collaborators) (hk : KeepsLastMeasure ext)
    (st : Session) (idx : Int) (hl : st.Linked) (pre : List XmlNode) (c : XmlNode)
    (rest : List XmlNode) (hc : c.name = "Measure") :
    ∃ idx1 : Int,
      staff0Loop ext st idx (pre ++ c :: rest)
        = staff0Loop ext (staff0Loop ext st idx pre) idx1 (c :: rest)
      ∧ (newMeasure (staff0Loop ext st idx pre)).timesig
          = (staff0Loop ext st idx pre).score.inheritedTimesig
      ∧ (newMeasure (staff0Loop ext st idx pre)).ticks
          = (staff0Loop ext st idx pre).score.inheritedTimesig
      ∧ (staff0Tag ext ((staff0Loop ext st idx pre).enter c) idx1 c).1
          = placeMeasure
              { (staff0Loop ext st idx pre) with
                e := { (staff0Loop ext st idx pre).e with
                       name := c.name, currentMeasureIndex := idx1 } }
              (readAndCheck ext 0 c (newMeasure (staff0Loop ext st idx pre))
                { (staff0Loop ext st idx pre).e with
                  name := c.name, currentMeasureIndex := idx1 }).1
              (readAndCheck ext 0 c (newMeasure (staff0Loop ext st idx pre))
                { (staff0Loop ext st idx pre).e with
                  name := c.name, currentMeasureIndex := idx1 }).2
      ∧ ((readAndCheck ext 0 c (newMeasure (staff0Loop ext st idx pre))
            { (staff0Loop ext st idx pre).e with
              name := c.name, currentMeasureIndex := idx1 }).1.isMMRest = false →
         (readAndCheck ext 0 c (newMeasure (staff0Loop ext st idx pre))
            { (staff0Loop ext st idx pre).e with
              name := c.name, currentMeasureIndex := idx1 }).1.timesig
           = (newMeasure (staff0Loop ext st idx pre)).timesig →
         (staff0Tag ext ((staff0Loop ext st idx pre).enter c) idx1 c).1.score.lastReal
           = some (staff0Loop ext st idx pre).score.pool.length
         ∧ ((staff0Tag ext ((staff0Loop ext st idx pre).enter c) idx1 c).1.score.measure
              (staff0Loop ext st idx pre).score.pool.length).timesig
           = (staff0Loop ext st idx pre).score.inheritedTimesig) := by
  obtain ⟨idx1, happ⟩ := staff0Loop_append ext (c :: rest) pre st idx
  have hl1 : (staff0Loop ext st idx pre).Linked := staff0Loop_linked ext hk pre st idx hl
  generalize staff0Loop ext st idx pre = st1 at happ hl1 ⊢
  obtain ⟨h1, h2, -⟩ := newMeasure_inherits st1 hl1
  have htag : (staff0Tag ext (st1.enter c) idx1 c).1
      = placeMeasure
          { st1 with e := { st1.e with name := c.name, currentMeasureIndex := idx1 } }
          (readAndCheck ext 0 c (newMeasure st1)
            { st1.e with name := c.name, currentMeasureIndex := idx1 }).1
          (readAndCheck ext 0 c (newMeasure st1)
            { st1.e with name := c.name, currentMeasureIndex := idx1 }).2 := by
    unfold staff0Tag
    rw [if_pos hc]
    rfl
  refine ⟨idx1, happ, h1, h2, htag, ?_⟩
  intro hmm hts
  rw [htag]
  unfold placeMeasure
  simp only [hmm, Bool.false_eq_true, not_false_eq_true, if_true]
  constructor
  · show (st1.score.addNew _).lastReal = _
    rw [lastReal_addNew _ _ hl1.1, readAndCheck_kind]
    rfl
  · show ((st1.score.addNew _).measure st1.score.pool.length).timesig = _
    rw [measure_addNew_new, hts, h1]


theorem sampleReaders_keepsLastMeasure : KeepsLastMeasure sampleReaders := by
  constructor
  · intro c staff m e
    exact skipCurrentElement_lastMeasure e c
  · intro tag c e
    exact skipCurrentElement_lastMeasure e c

theorem sampleSession_linked (v : String) : (sampleSession v).Linked :=
  ⟨fun _ hj => by simp [sampleSession, Score.empty] at hj, rfl⟩

/-- C9 on a stream of two `Measure` tags, the first in 3/4 and the second without a
time signature: the measure created for the second starts out in 3/4, and a measure
created before any other starts out in 4/4. -/
theorem staff0_second_measure_inherits_three_four :
    (plainMeasureTag "b").name = "Measure"
    ∧ (newMeasure (staff0Loop sampleReaders (sampleSession "4.0") 0
        [measureTag "3" "4" "a"])).timesig = ⟨3, 4⟩
    ∧ (newMeasure (staff0Loop sampleReaders (sampleSession "4.0") 0
        [measureTag "3" "4" "a"])).ticks = ⟨3, 4⟩
    ∧ (newMeasure (staff0Loop sampleReaders (sampleSession "4.0") 0 [])).timesig = ⟨4, 4⟩
    ∧ (newMeasure (staff0Loop sampleReaders (sampleSession "4.0") 0 [])).ticks = ⟨4, 4⟩ := by
  obtain ⟨_, -, h1, h2, -, -⟩ :=
    staff0_measure_inherits_timesig sampleReaders sampleReaders_keepsLastMeasure
      (sampleSession "4.0") 0 (sampleSession_linked "4.0") [measureTag "3" "4" "a"]
      (plainMeasureTag "b") [] (by decide)
  obtain ⟨_, -, k1, k2, -, -⟩ :=
    staff0_measure_inherits_timesig sampleReaders sampleReaders_keepsLastMeasure
      (sampleSession "4.0") 0 (sampleSession_linked "4.0") []
      (plainMeasureTag "b") [] (by decide)
  refine ⟨by decide, ?_, ?_, ?_, ?_⟩
  · rw [h1]; decide
  · rw [h2]; decide
  · rw [k1]; decide
  · rw [k2]; decide

/-! ## C4: a multi-measure rest on staff 0 -/

theorem chained_tick :
    ∀ (ms : List Measure) (t : Fraction), Chained t ms →
      ∀ (i : Nat) (m : Measure), ms[i]? = some m →
        m.tick = ((ms.take i).map Measure.ticks).foldl (fun x y => x + y) t
  | [], _, _, i, m, h => by simp at h
  | m0 :: ms, t, hc, 0, m, h => by
    simp only [List.getElem?_cons_zero, Option.some.injEq] at h
    subst h
    simpa using hc.1
  | m0 :: ms, t, hc, i + 1, m, h => by
    simp only [List.getElem?_cons_succ] at h
    have := chained_tick ms _ hc.2 i m h
    rw [this]
    simp only [List.take_succ_cons, List.map_cons, List.foldl_cons]
    rw [hc.1]

theorem chained_adjacent :
    ∀ (ms : List Measure) (t : Fraction), Chained t ms →
      ∀ (i : Nat) (m m1 : Measure), ms[i]? = some m → ms[i + 1]? = some m1 →
        m1.tick = m.tick + m.ticks
  | [], _, _, i, m, _, h, _ => by simp at h
  | m0 :: m1 :: ms, t, hc, 0, m, m', h, h' => by
    simp only [List.getElem?_cons_zero, Option.some.injEq] at h
    simp only [zero_add, List.getElem?_cons_succ, List.getElem?_cons_zero,
      Option.some.injEq] at h'
    subst h h'
    exact hc.2.1
  | [m0], t, hc, 0, m, m', h, h' => by simp at h'
  | m0 :: ms, t, hc, i + 1, m, m', h, h' => by
    simp only [List.getElem?_cons_succ] at h h'
    exact chained_adjacent ms _ hc.2 i m m' h h'

/-- The staff-0 loop over ordinary `Measure` tags appends one object per tag, in
stream order, each starting where the one before it ends. -/
theorem staff0Loop_plain (ext : Collaborators) :
    ∀ (tags : List XmlNode) (st : Session) (idx : Int), st.e.error = .NoError →
      (∀ t ∈ tags, PlainMeasureTag ext t) →
      ∃ ms : List Measure,
        (staff0Loop ext st idx tags).score.pool = st.score.pool ++ ms
        ∧ (staff0Loop ext st idx tags).score.measures
            = st.score.measures ++ List.range' st.score.pool.length ms.length
        ∧ List.Forall₂ (fun t m => ∃ m0 e0, m = (readAndCheck ext 0 t m0 e0).1) tags ms
        ∧ Chained st.e.tick ms
        ∧ (staff0Loop ext st idx tags).e.error = .NoError
  | [], st, idx, he, _ => ⟨[], by simp [staff0Loop], by simp [staff0Loop], .nil, trivial, he⟩
  | t :: ts, st, idx, he, hp => by
    obtain ⟨⟨a, x, ch, rfl⟩, hread⟩ := hp t (List.mem_cons_self _ _)
    have hstep : staff0Loop ext st idx (.element "Measure" a x ch :: ts)
        = staff0Loop ext
            (staff0Tag ext (st.enter (.element "Measure" a x ch)) idx
              (.element "Measure" a x ch)).1
            (staff0Tag ext (st.enter (.element "Measure" a x ch)) idx
              (.element "Measure" a x ch)).2 ts := by
      conv_lhs => unfold staff0Loop
      simp only [he, ne_eq, not_true_eq_false, if_false]
    obtain ⟨hmm, htick, herr⟩ := hread
      { st.enter (.element "Measure" a x ch) with
        e := { (st.enter (.element "Measure" a x ch)).e with currentMeasureIndex := idx } }
      { (st.enter (.element "Measure" a x ch)).e with currentMeasureIndex := idx }
    have htag : (staff0Tag ext (st.enter (.element "Measure" a x ch)) idx
        (.element "Measure" a x ch)).1
        = placeMeasure
            { st.enter (.element "Measure" a x ch) with
              e := { (st.enter (.element "Measure" a x ch)).e with currentMeasureIndex := idx } }
            (readAndCheck ext 0 (.element "Measure" a x ch)
              (newMeasure { st.enter (.element "Measure" a x ch) with
                e := { (st.enter (.element "Measure" a x ch)).e with
                       currentMeasureIndex := idx } })
              { (st.enter (.element "Measure" a x ch)).e with currentMeasureIndex := idx }).1
            (readAndCheck ext 0 (.element "Measure" a x ch)
              (newMeasure { st.enter (.element "Measure" a x ch) with
                e := { (st.enter (.element "Measure" a x ch)).e with
                       currentMeasureIndex := idx } })
              { (st.enter (.element "Measure" a x ch)).e with currentMeasureIndex := idx }).2 := by
      unfold staff0Tag
      rw [if_pos (show (XmlNode.element "Measure" a x ch).name = "Measure" from rfl)]
    generalize hr : readAndCheck ext 0 (.element "Measure" a x ch)
      (newMeasure { st.enter (.element "Measure" a x ch) with
        e := { (st.enter (.element "Measure" a x ch)).e with currentMeasureIndex := idx } })
      { (st.enter (.element "Measure" a x ch)).e with currentMeasureIndex := idx } = r
      at hmm htick herr htag
    have hplace : (staff0Tag ext (st.enter (.element "Measure" a x ch)) idx
        (.element "Measure" a x ch)).1
        = { st.enter (.element "Measure" a x ch) with
            score := st.score.addNew r.1
            e := { r.2 with lastMeasure := some st.score.pool.length,
                            tick := r.1.tick + r.1.ticks } } := by
      rw [htag]
      unfold placeMeasure
      simp only [hmm, Bool.false_eq_true, not_false_eq_true, if_true]
      rfl
    have herr2 : (staff0Tag ext (st.enter (.element "Measure" a x ch)) idx
        (.element "Measure" a x ch)).1.e.error = .NoError := by
      rw [hplace]
      exact herr he
    obtain ⟨ms, h1, h2, h3, h4, h5⟩ := staff0Loop_plain ext ts _
      (staff0Tag ext (st.enter (.element "Measure" a x ch)) idx
        (.element "Measure" a x ch)).2 herr2
      (fun t ht => hp t (List.mem_cons_of_mem _ ht))
    rw [hplace] at h1 h2 h4
    refine ⟨r.1 :: ms, ?_, ?_, ?_, ?_, ?_⟩
    · rw [hstep, hplace, h1]
      simp [Score.addNew]
    · rw [hstep, hplace, h2]
      simp [Score.addNew, List.range'_succ]
    · exact .cons ⟨_, _, by rw [hr]⟩ h3
    · exact ⟨htick, h4⟩
    · rw [hstep]
      exact h5

theorem map_getD_range' {α : Type} (d : α) :
    ∀ (ms old : List α),
      (List.range' old.length ms.length).map (fun j => (old ++ ms).getD j d) = ms
  | [], _ => rfl
  | m :: ms, old => by
    have ih := map_getD_range' d ms (old ++ [m])
    simp only [List.length_append, List.length_singleton, List.append_assoc,
      List.singleton_append] at ih
    simp only [List.length_cons, List.range'_succ, List.map_cons, ih, List.cons.injEq,
      and_true]
    have h : (old ++ m :: ms)[old.length]? = some m := by
      rw [List.getElem?_append_right (le_refl _)]
      simp
    simp [List.getD_eq_getElem?_getD, h]


/-- C3. For every `Staff` element of staff 0 whose children are N `Measure` tags
that read as ordinary measures (none a multi-measure rest; no tick or frame-box
tags between them), read into a document whose measure sequence is empty from a
stream without error, `readStaff` returns, and leaves the measure sequence with
exactly N entries, the i-th being the measure read from the i-th tag; the tick of
every measure is the sum of the durations of the measures before it, so the first
measure is at tick 0 and each measure starts where the one before it ends. -/
theorem readStaff_staff0_measures_end_to_end (ext : Collaborators) (st : Session)
    (c : XmlNode) (hstaff : staffIndex c = 0) (hnew : st.score.measures = [])
    (herr : st.e.error = .NoError) (hplain : ∀ t ∈ c.children, PlainMeasureTag ext t) :
    ∃ st1, readStaff ext st c = some st1
      ∧ st1.score.sequence.length = c.children.length
      ∧ List.Forall₂ (fun t m => ∃ m0 e0, m = (readAndCheck ext 0 t m0 e0).1)
          c.children st1.score.sequence
      ∧ (∀ i m, st1.score.sequence[i]? = some m →
          m.tick = ((st1.score.sequence.take i).map Measure.ticks).foldl
            (fun x y => x + y) Fraction.zero)
      ∧ (∀ m, st1.score.sequence[0]? = some m → m.tick = Fraction.zero)
      ∧ (∀ i m m1, st1.score.sequence[i]? = some m → st1.score.sequence[i + 1]? = some m1 →
          m1.tick = m.tick + m.ticks) := by
  obtain ⟨ms, h1, h2, h3, h4, -⟩ :=
    staff0Loop_plain ext c.children (startStaff st 0) 0 herr hplain
  have hseq : (staff0Loop ext (startStaff st 0) 0 c.children).score.sequence = ms := by
    unfold Score.sequence
    rw [h2]
    have hm : (startStaff st 0).score.measures = [] := hnew
    rw [hm, List.nil_append]
    have hfun : (staff0Loop ext (startStaff st 0) 0 c.children).score.measure
        = fun j => ((startStaff st 0).score.pool ++ ms).getD j Measure.blank := by
      funext j
      unfold Score.measure
      rw [h1]
    rw [hfun]
    exact map_getD_range' Measure.blank ms _
  refine ⟨staff0Loop ext (startStaff st 0) 0 c.children, ?_, ?_, ?_, ?_, ?_, ?_⟩
  · unfold readStaff
    rw [if_pos hstaff]
  · rw [hseq]
    exact h3.length_eq.symm
  · rw [hseq]
    exact h3
  · rw [hseq]
    intro i m hi
    exact chained_tick ms _ h4 i m hi
  · rw [hseq]
    intro m hm
    have := chained_tick ms _ h4 0 m hm
    simpa using this
  · rw [hseq]
    intro i m m1 hi hi1
    exact chained_adjacent ms _ h4 i m m1 hi hi1

theorem sampleReaders_plain (n d x : String) : PlainMeasureTag sampleReaders (measureTag n d x) := by
  refine ⟨⟨_, _, _, rfl⟩, ?_⟩
  intro st e
  refine ⟨?_, rfl, ?_⟩
  · have h : XmlReader.hasAttribute (measureTag n d x) "mmRest" = false := rfl
    simp [readAndCheck, sampleReaders, Measure.isMMRest, h, newMeasure, Measure.blank]
  · intro he
    show (e.skipCurrentElement _).error = _
    simp [XmlReader.skipCurrentElement, measureTag, XmlNode.firstFault, XmlNode.firstFaultList, he]

/-- C3 on a staff of three measures in 3/4, 2/4 and 4/4: the sequence holds three
measures, at ticks 0, 3/4 and 5/4. -/
theorem readStaff_three_measures :
    staffIndex (staffTag "1"
        [measureTag "3" "4" "a", measureTag "2" "4" "b", measureTag "4" "4" "c"]) = 0
    ∧ ∃ st1, readStaff sampleReaders (sampleSession "4.0")
          (staffTag "1"
            [measureTag "3" "4" "a", measureTag "2" "4" "b", measureTag "4" "4" "c"])
          = some st1
        ∧ st1.score.sequence.length = 3
        ∧ st1.score.sequence.map Measure.tick = [⟨0, 1⟩, ⟨3, 4⟩, ⟨5, 4⟩] := by
  obtain ⟨st1, h, hlen, -, -, -, -⟩ :=
    readStaff_staff0_measures_end_to_end sampleReaders (sampleSession "4.0")
      (staffTag "1" [measureTag "3" "4" "a", measureTag "2" "4" "b", measureTag "4" "4" "c"])
      (by decide) rfl rfl
      (by
        intro t ht
        simp only [staffTag, XmlNode.children, List.mem_cons, List.mem_singleton,
          List.not_mem_nil, or_false] at ht
        rcases ht with rfl | rfl | rfl <;> exact sampleReaders_plain _ _ _)
  refine ⟨by decide, st1, h, hlen, ?_⟩
  have hd : (readStaff sampleReaders (sampleSession "4.0")
      (staffTag "1" [measureTag "3" "4" "a", measureTag "2" "4" "b", measureTag "4" "4" "c"])).map
      (fun s => s.score.sequence.map Measure.tick) = some [⟨0, 1⟩, ⟨3, 4⟩, ⟨5, 4⟩] := by
    decide
  rw [h] at hd
  simpa using hd

/-! ## Staves other than staff 0: walking the existing sequence -/

theorem nextMeasure_of_split (s : Score) (done rem : List Nat) (m : Nat)
    (hm : s.measures = done ++ m :: rem) (hnd : m ∉ done)
    (hk : ∀ j ∈ rem, (s.measure j).isMeasure = true) : s.nextMeasure m = rem.head? := by
  unfold Score.nextMeasure
  rw [hm, List.dropWhile_append_of_pos, List.dropWhile_cons_of_neg]
  · simp only [List.drop_succ_cons, List.drop_zero]
    cases rem with
    | nil => rfl
    | cons j js =>
      simp [hk j (List.mem_cons_self _ _)]
  · simp
  · intro a ha
    simp only [bne_iff_ne, ne_eq]
    intro h
    exact hnd (h ▸ ha)

/-- A `Measure` tag met while a measure remains is read into that measure: nothing is
created, appended or logged, and the walk moves to the next measure. -/
theorem staffNMeasure_matched (ext : Collaborators) (staff : Int) (w : Walk) (t : XmlNode)
    (done rem : List Nat) (m : Nat) (ht : InPlaceMeasureTag ext staff t)
    (ha : w.Aligned done (m :: rem)) :
    ∃ w1, staffNMeasure ext staff w t = some w1
      ∧ w1.Aligned (done ++ [m]) rem
      ∧ w1.st.score.measures = w.st.score.measures
      ∧ w1.st.score.pool.length = w.st.score.pool.length
      ∧ w1.st.debug = w.st.debug
      ∧ w1.st.lastError = w.st.lastError
      ∧ (∀ j, j ≠ m → w1.st.score.measure j = w.st.score.measure j) := by
  obtain ⟨hmeas, hnd, hall, hptr, herr⟩ := ha
  obtain ⟨-, hread⟩ := ht
  have hmm : w.measure = some m := hptr
  have hmin : m ∈ done ++ m :: rem := by simp
  obtain ⟨hmlt, hmk, hmr, hmc⟩ := hall m hmin
  obtain ⟨r1, r2, r3⟩ := hread (w.st.score.measure m)
    { w.st.e with tick := (w.st.score.measure m).tick, currentMeasureIndex := w.measureIdx }
    hmr hmc
  have hkind := readAndCheck_kind ext staff t (w.st.score.measure m)
    { w.st.e with tick := (w.st.score.measure m).tick, currentMeasureIndex := w.measureIdx }
  generalize hr : readAndCheck ext staff t (w.st.score.measure m)
    { w.st.e with tick := (w.st.score.measure m).tick, currentMeasureIndex := w.measureIdx } = r
    at r1 r2 r3 hkind
  have hstep : staffNMeasure ext staff w t
      = some { st := { w.st with score := w.st.score.update m r.1
                                 e := { r.2 with lastMeasure := some m } }
               measureIdx := w.measureIdx + 1
               measure := (w.st.score.update m r.1).nextMeasure m } := by
    unfold staffNMeasure targetMeasure
    simp only [hmm, hr, r2, Bool.false_eq_true, if_false, r1]
  have hsettled : ∀ j ∈ done ++ m :: rem,
      j < (w.st.score.update m r.1).pool.length ∧ ((w.st.score.update m r.1).measure j).Settled := by
    intro j hj
    obtain ⟨hjlt, hjs⟩ := hall j hj
    refine ⟨by simpa [Score.update] using hjlt, ?_⟩
    by_cases hjm : m = j
    · subst hjm
      rw [measure_update_same _ _ hmlt]
      exact ⟨hkind, r1, r2⟩
    · rw [measure_update_other _ _ hjm]
      exact hjs
  have hmnd : m ∉ done := by
    intro h
    have := List.disjoint_of_nodup_append hnd h
    exact this (List.mem_cons_self _ _)
  have hnext : (w.st.score.update m r.1).nextMeasure m = rem.head? :=
    nextMeasure_of_split _ done rem m hmeas hmnd
      (fun j hj => (hsettled j (by simp [hj])).2.1)
  refine ⟨_, hstep, ⟨?_, ?_, ?_, hnext, r3 herr⟩, rfl, by simp [Score.update], rfl, rfl,
    ?_⟩
  · show w.st.score.measures = _
    rw [hmeas]
    simp
  · simpa using hnd
  · intro j hj
    exact hsettled j (by simpa using hj)
  · intro j hj
    exact measure_update_other _ _ (Ne.symm hj)


/-- What a `Measure` tag does when no measure is left to match, whatever the content
reader: a debug line is written, a measure is created at the cursor tick, appended
to the sequence and handed to the content reader, and the tag fails only through
the null last-measure reference of a multi-measure rest. -/
theorem staffNMeasure_surplus (ext : Collaborators) (staff : Int) (w : Walk) (t : XmlNode)
    (hnone : w.measure = none) :
    (staffNMeasure ext staff w t = none
      ↔ (readAndCheck ext staff t { Measure.blank with tick := w.st.e.tick }
            { w.st.e with currentMeasureIndex := w.measureIdx }).1.isMMRest = true
        ∧ (readAndCheck ext staff t { Measure.blank with tick := w.st.e.tick }
            { w.st.e with currentMeasureIndex := w.measureIdx }).2.lastMeasure = none)
    ∧ ∀ w1, staffNMeasure ext staff w t = some w1 →
        w1.st.score.measures = w.st.score.measures ++ [w.st.score.pool.length]
        ∧ w1.st.score.pool.length = w.st.score.pool.length + 1
        ∧ w1.st.debug = w.st.debug ++ [missingMeasureLine]
        ∧ w1.st.score.measure w.st.score.pool.length
            = (readAndCheck ext staff t { Measure.blank with tick := w.st.e.tick }
                { w.st.e with currentMeasureIndex := w.measureIdx }).1
        ∧ w1.st.lastError = w.st.lastError := by
  have hlen : w.st.score.pool.length
      < (w.st.score.addNew { Measure.blank with tick := w.st.e.tick }).pool.length := by
    simp [Score.addNew]
  unfold staffNMeasure targetMeasure
  simp only [hnone, measure_addNew_new, Session.log, missingMeasureLine]
  generalize readAndCheck ext staff t { Measure.blank with tick := w.st.e.tick }
    { w.st.e with currentMeasureIndex := w.measureIdx } = r
  constructor
  · constructor
    · intro h
      split at h
      · rename_i hmm
        split at h
        · rename_i hl
          exact ⟨hmm, hl⟩
        · simp at h
      · simp at h
    · rintro ⟨hmm, hl⟩
      simp only [hmm, if_true, hl]
  · intro w1 h
    have hw : ∃ e2 idx2 m2, w1 =
        { st := { score := (w.st.score.addNew { Measure.blank with tick := w.st.e.tick }).update
                    w.st.score.pool.length r.1,
                  e := e2, lastError := w.st.lastError,
                  debug := w.st.debug ++ ["Score::readStaff(): missing measure!"],
                  calls := w.st.calls },
          measureIdx := idx2, measure := m2 } := by
      split at h
      · split at h
        · simp at h
        · simp only [Option.some.injEq] at h
          exact ⟨_, _, _, h.symm⟩
      · simp only [Option.some.injEq] at h
        exact ⟨_, _, _, h.symm⟩
    obtain ⟨e2, idx2, m2, rfl⟩ := hw
    refine ⟨rfl, by simp [Score.update, Score.addNew], rfl, ?_, rfl⟩
    exact measure_update_same _ _ hlen

/-- The same with a measure left to match, whatever the content reader: nothing is
created, appended or logged. -/
theorem staffNMeasure_no_entry (ext : Collaborators) (staff : Int) (w : Walk) (t : XmlNode)
    (m : Nat) (hsome : w.measure = some m) :
    ∀ w1, staffNMeasure ext staff w t = some w1 →
      w1.st.score.measures = w.st.score.measures
      ∧ w1.st.score.pool.length = w.st.score.pool.length
      ∧ w1.st.debug = w.st.debug := by
  intro w1 h
  unfold staffNMeasure targetMeasure at h
  simp only [hsome] at h
  split at h
  · split at h
    · simp at h
    · simp only [Option.some.injEq] at h
      subst h
      exact ⟨rfl, by simp [Score.update], rfl⟩
  · simp only [Option.some.injEq] at h
    subst h
    exact ⟨rfl, by simp [Score.update], rfl⟩


/-- A `Measure` tag met when the aligned walk has no measure left adds one ordinary
measure at the end of the sequence and one debug line. -/
theorem staffNMeasure_filler (ext : Collaborators) (staff : Int) (w : Walk) (t : XmlNode)
    (done : List Nat) (ht : InPlaceMeasureTag ext staff t) (ha : w.Aligned done []) :
    ∃ w1, staffNMeasure ext staff w t = some w1
      ∧ w1.Aligned (done ++ [w.st.score.pool.length]) []
      ∧ w1.st.score.measures = w.st.score.measures ++ [w.st.score.pool.length]
      ∧ w1.st.score.pool.length = w.st.score.pool.length + 1
      ∧ w1.st.debug = w.st.debug ++ [missingMeasureLine]
      ∧ w1.st.lastError = w.st.lastError := by
  obtain ⟨hmeas, hnd, hall, hptr, herr⟩ := ha
  obtain ⟨-, hread⟩ := ht
  have hnone : w.measure = none := hptr
  simp only [List.append_nil] at hmeas hnd hall
  obtain ⟨r1, r2, r3⟩ := hread { Measure.blank with tick := w.st.e.tick }
    { w.st.e with currentMeasureIndex := w.measureIdx } rfl rfl
  have hkind := readAndCheck_kind ext staff t { Measure.blank with tick := w.st.e.tick }
    { w.st.e with currentMeasureIndex := w.measureIdx }
  have hlen : w.st.score.pool.length
      < (w.st.score.addNew { Measure.blank with tick := w.st.e.tick }).pool.length := by
    simp [Score.addNew]
  have hfresh : w.st.score.pool.length ∉ done := by
    intro h
    exact absurd (hall _ h).1 (lt_irrefl _)
  have hstep : staffNMeasure ext staff w t
      = some
          { st := { score := (w.st.score.addNew { Measure.blank with tick := w.st.e.tick }).update
                      w.st.score.pool.length
                      (readAndCheck ext staff t { Measure.blank with tick := w.st.e.tick }
                        { w.st.e with currentMeasureIndex := w.measureIdx }).1,
                    e := { (readAndCheck ext staff t { Measure.blank with tick := w.st.e.tick }
                        { w.st.e with currentMeasureIndex := w.measureIdx }).2 with
                           lastMeasure := some w.st.score.pool.length },
                    lastError := w.st.lastError,
                    debug := w.st.debug ++ [missingMeasureLine],
                    calls := w.st.calls },
            measureIdx := w.measureIdx + 1,
            measure := ((w.st.score.addNew { Measure.blank with tick := w.st.e.tick }).update
                      w.st.score.pool.length
                      (readAndCheck ext staff t { Measure.blank with tick := w.st.e.tick }
                        { w.st.e with currentMeasureIndex := w.measureIdx }).1).nextMeasure
                      w.st.score.pool.length } := by
    unfold staffNMeasure targetMeasure
    simp only [hnone, measure_addNew_new, Session.log, missingMeasureLine]
    simp only [r1, r2, Bool.false_eq_true, if_false]
  generalize readAndCheck ext staff t { Measure.blank with tick := w.st.e.tick }
    { w.st.e with currentMeasureIndex := w.measureIdx } = r at r1 r2 r3 hkind hstep
  have hsettled : ∀ j ∈ done ++ [w.st.score.pool.length],
      j < ((w.st.score.addNew { Measure.blank with tick := w.st.e.tick }).update
              w.st.score.pool.length r.1).pool.length
        ∧ (((w.st.score.addNew { Measure.blank with tick := w.st.e.tick }).update
              w.st.score.pool.length r.1).measure j).Settled := by
    intro j hj
    simp only [List.mem_append, List.mem_singleton] at hj
    rcases hj with hj | hj
    · obtain ⟨hjlt, hjs⟩ := hall j hj
      refine ⟨by simp [Score.update, Score.addNew]; omega, ?_⟩
      rw [measure_update_other _ _ (by omega), measure_addNew_old _ _ hjlt]
      exact hjs
    · subst hj
      refine ⟨by simp [Score.update, Score.addNew], ?_⟩
      rw [measure_update_same _ _ hlen]
      exact ⟨hkind, r1, r2⟩
  have hnext : ((w.st.score.addNew { Measure.blank with tick := w.st.e.tick }).update
      w.st.score.pool.length r.1).nextMeasure w.st.score.pool.length = none :=
    nextMeasure_of_split _ done [] _ (by simp [Score.update, Score.addNew, hmeas]) hfresh
      (fun j hj => by simp at hj)
  refine ⟨_, hstep, ⟨?_, ?_, ?_, hnext, r3 herr⟩, ?_, by simp [Score.update, Score.addNew],
    rfl, rfl⟩
  · simp [Score.update, Score.addNew, hmeas]
  · simp only [List.append_nil]
    exact List.Nodup.append hnd (List.nodup_singleton _) (by simpa using hfresh)
  · simpa using hsettled
  · simp [Score.update, Score.addNew]

/-- The loop of a staff other than staff 0 over ordinary `Measure` tags, started on an
aligned walk: the tags beyond the remaining measures each add one measure at the
end of the sequence and one debug line, the others add nothing, and the loop
returns. -/
theorem staffNLoop_aligned (ext : Collaborators) (staff : Int) :
    ∀ (tags : List XmlNode) (w : Walk) (done rem : List Nat),
      (∀ t ∈ tags, InPlaceMeasureTag ext staff t) → w.Aligned done rem →
      ∃ w1, staffNLoop ext staff w tags = some w1
        ∧ w1.st.score.measures = w.st.score.measures
            ++ List.range' w.st.score.pool.length (tags.length - rem.length)
        ∧ w1.st.score.pool.length = w.st.score.pool.length + (tags.length - rem.length)
        ∧ w1.st.debug = w.st.debug
            ++ List.replicate (tags.length - rem.length) missingMeasureLine
        ∧ w1.st.lastError = w.st.lastError
        ∧ w1.st.e.error = .NoError
        ∧ (∀ j ∈ rem.drop tags.length, w1.st.score.measure j = w.st.score.measure j)
  | [], w, _, _, _, ha => ⟨w, rfl, by simp, by simp, by simp, rfl, ha.2.2.2.2, fun _ _ => rfl⟩
  | t :: ts, w, done, rem, ht, ha => by
    have herr : w.st.e.error = .NoError := ha.2.2.2.2
    obtain ⟨⟨a, x, ch, rfl⟩, hread⟩ := ht t (List.mem_cons_self _ _)
    have htin : InPlaceMeasureTag ext staff (.element "Measure" a x ch) :=
      ⟨⟨a, x, ch, rfl⟩, hread⟩
    have ha' : Walk.Aligned { w with st := w.st.enter (.element "Measure" a x ch) } done rem := ha
    have hloop : ∀ w1, staffNMeasure ext staff
        { w with st := w.st.enter (.element "Measure" a x ch) } (.element "Measure" a x ch)
          = some w1 →
        staffNLoop ext staff w (.element "Measure" a x ch :: ts) = staffNLoop ext staff w1 ts := by
      intro w1 h
      conv_lhs => unfold staffNLoop
      simp only [herr, ne_eq, not_true_eq_false, if_false]
      have htag : staffNTag ext staff { w with st := w.st.enter (.element "Measure" a x ch) }
          (.element "Measure" a x ch) = some w1 := by
        unfold staffNTag
        rw [if_pos (show (XmlNode.element "Measure" a x ch).name = "Measure" from rfl)]
        exact h
      rw [htag]
    cases rem with
    | nil =>
      obtain ⟨w1, h1, hal, hm, hp, hd, hle⟩ := staffNMeasure_filler ext staff _ _ done htin ha'
      obtain ⟨w2, k1, k2, k3, k4, k5, k6, -⟩ := staffNLoop_aligned ext staff ts w1 _ []
        (fun t ht' => ht t (List.mem_cons_of_mem _ ht')) hal
      refine ⟨w2, (hloop w1 h1).trans k1, ?_, ?_, ?_, k5.trans hle, k6,
        fun j hj => by simp at hj⟩
      · rw [k2, hm, hp]
        simp only [List.length_nil, Nat.sub_zero, List.length_cons, List.range'_succ,
          List.append_assoc, List.singleton_append]
        rfl
      · rw [k3, hp]
        simp only [List.length_nil, Nat.sub_zero, List.length_cons]
        show w.st.score.pool.length + 1 + ts.length = w.st.score.pool.length + (ts.length + 1)
        omega
      · rw [k4, hd]
        simp only [List.length_nil, Nat.sub_zero, List.length_cons, List.replicate_succ,
          List.append_assoc, List.singleton_append]
        rfl
    | cons m rem =>
      obtain ⟨w1, h1, hal, hm, hp, hd, hle, hkeep⟩ :=
        staffNMeasure_matched ext staff _ _ done rem m htin ha'
      obtain ⟨w2, k1, k2, k3, k4, k5, k6, k7⟩ := staffNLoop_aligned ext staff ts w1 _ rem
        (fun t ht' => ht t (List.mem_cons_of_mem _ ht')) hal
      have hmrem : m ∉ rem := by
        have hnd := ha.2.1
        rw [List.nodup_append] at hnd
        exact (List.nodup_cons.1 hnd.2.1).1
      refine ⟨w2, (hloop w1 h1).trans k1, ?_, ?_, ?_, k5.trans hle, k6, ?_⟩
      rotate_left 3
      · intro j hj
        simp only [List.length_cons, List.drop_succ_cons] at hj
        rw [k7 j hj]
        exact hkeep j (fun h => hmrem (h ▸ List.mem_of_mem_drop hj))
      · rw [k2, hm, hp]
        simp only [List.length_cons, Nat.succ_sub_succ_eq_sub]
        rfl
      · rw [k3, hp]
        simp only [List.length_cons, Nat.succ_sub_succ_eq_sub]
        rfl
      · rw [k4, hd]
        simp only [List.length_cons, Nat.succ_sub_succ_eq_sub]
        rfl


theorem firstMeasure_of_settled (s : Score)
    (hall : ∀ j ∈ s.measures, j < s.pool.length ∧ (s.measure j).Settled) :
    s.firstMeasure = s.measures.head? := by
  unfold Score.firstMeasure
  cases hm : s.measures with
  | nil => rfl
  | cons j js =>
    have : (s.measure j).isMeasure = true := (hall j (by simp [hm])).2.1
    simp [this]

theorem startWalk_aligned (st : Session) (staff : Int) (herr : st.e.error = .NoError)
    (hnd : st.score.measures.Nodup)
    (hall : ∀ j ∈ st.score.measures, j < st.score.pool.length ∧ (st.score.measure j).Settled) :
    Walk.Aligned
      { st := startStaff st staff, measureIdx := 0, measure := st.score.firstMeasure }
      [] st.score.measures :=
  ⟨rfl, by simpa using hnd, by simpa using hall, firstMeasure_of_settled st.score hall, herr⟩

/-! ## C5: a staff with fewer `Measure` tags than staff 0 defined measures -/

/-- C5, as the code has it. Let staff 0 have defined the measures of the sequence
(M0..M3, or any number of ordinary measures), and let the `Staff` element of
another staff hold no more `Measure` tags than the sequence has measures, each
reading as an ordinary measure. Then `readStaff` returns without a stream error,
synthesizes no filler measure (the sequence and the pool keep their size) and
writes no diagnostic: the measures left without a tag are exactly as they were. -/
theorem readStaff_other_staff_fewer_tags (ext : Collaborators) (st : Session) (c : XmlNode)
    (hstaff : staffIndex c ≠ 0) (herr : st.e.error = .NoError)
    (hnd : st.score.measures.Nodup)
    (hall : ∀ j ∈ st.score.measures, j < st.score.pool.length ∧ (st.score.measure j).Settled)
    (htags : ∀ t ∈ c.children, InPlaceMeasureTag ext (staffIndex c) t)
    (hfewer : c.children.length ≤ st.score.measures.length) :
    ∃ st1, readStaff ext st c = some st1
      ∧ st1.score.measures = st.score.measures
      ∧ st1.score.pool.length = st.score.pool.length
      ∧ st1.debug = st.debug
      ∧ st1.lastError = st.lastError
      ∧ st1.e.error = .NoError
      ∧ (∀ j ∈ st.score.measures.drop c.children.length,
          st1.score.measure j = st.score.measure j) := by
  obtain ⟨w1, h1, h2, h3, h4, h5, h6, h7⟩ :=
    staffNLoop_aligned ext (staffIndex c) c.children _ [] st.score.measures htags
      (startWalk_aligned st (staffIndex c) herr hnd hall)
  have hk : c.children.length - st.score.measures.length = 0 := Nat.sub_eq_zero_of_le hfewer
  rw [hk] at h2 h3 h4
  refine ⟨w1.st, ?_, ?_, ?_, ?_, h5, h6, h7⟩
  · unfold readStaff
    rw [if_neg hstaff, h1]
    rfl
  · simpa using h2
  · simpa using h3
  · simpa using h4

theorem sampleReaders_inPlace (x : String) (staff : Int) :
    InPlaceMeasureTag sampleReaders staff (plainMeasureTag x) := by
  refine ⟨⟨_, _, _, rfl⟩, ?_⟩
  intro m e hm hc
  have h : XmlReader.hasAttribute (plainMeasureTag x) "mmRest" = false := rfl
  refine ⟨hm, ?_, ?_⟩
  · simpa [readAndCheck, sampleReaders, Measure.isMMRest, h] using hc
  · intro he
    show (e.skipCurrentElement _).error = _
    simp [XmlReader.skipCurrentElement, plainMeasureTag, XmlNode.firstFault,
      XmlNode.firstFaultList, he]

theorem fourMeasureSession_settled :
    ∀ j ∈ fourMeasureSession.score.measures,
      j < fourMeasureSession.score.pool.length ∧ (fourMeasureSession.score.measure j).Settled := by
  have hm : fourMeasureSession.score.measures = [0, 1, 2, 3] := by decide
  intro j hj
  rw [hm] at hj
  simp only [List.mem_cons, List.mem_singleton, List.not_mem_nil, or_false] at hj
  rcases hj with rfl | rfl | rfl | rfl <;>
  · refine ⟨by decide, ?_, ?_, ?_⟩ <;> decide

/-- C5 at four measures and a second staff of three `Measure` tags: no measure is added
and nothing is logged. -/
theorem readStaff_second_staff_three_tags :
    staffIndex (staffTag "2" [plainMeasureTag "x", plainMeasureTag "y", plainMeasureTag "z"]) ≠ 0
    ∧ (readStaff sampleReaders fourMeasureSession
        (staffTag "2" [plainMeasureTag "x", plainMeasureTag "y", plainMeasureTag "z"])).map
        (fun s => (s.score.measures, s.score.pool.length, s.debug))
      = some ([0, 1, 2, 3], 4, []) := by
  obtain ⟨st1, h, h1, h2, h3, -, -, -⟩ :=
    readStaff_other_staff_fewer_tags sampleReaders fourMeasureSession
      (staffTag "2" [plainMeasureTag "x", plainMeasureTag "y", plainMeasureTag "z"])
      (by decide) (by decide) (by decide) fourMeasureSession_settled
      (by
        intro t ht
        simp only [staffTag, XmlNode.children, List.mem_cons, List.mem_singleton,
          List.not_mem_nil, or_false] at ht
        rcases ht with rfl | rfl | rfl <;> exact sampleReaders_inPlace _ _)
      (by decide)
  refine ⟨by decide, ?_⟩
  rw [h, Option.map_some', h1, h2, h3]
  decide

/-- C5 refuted as stated: staff 1 defines four measures and staff 2 holds three
`Measure` tags; the read succeeds, and the document has four measures, four
measure objects and no debug line, so no filler was synthesized for the missing
tag and no diagnostic was written for it. -/
theorem read400_short_second_staff_gets_no_filler :
    (read400 sampleReaders sampleSettings (sampleSession "4.0") shortSecondStaffDocument).map
      (fun r => (r.1, r.2.score.measures, r.2.score.pool.length, r.2.debug))
      = some (true, [0, 1, 2, 3], 4, []) := by
  decide


/-! ## C10: a staff with more `Measure` tags than the sequence has measures -/

/-- Surplus tags on a staff other than staff 0, where the code does what C10 says. Let
the sequence hold ordinary measures, and let the `Staff` element of a staff other
than staff 0 hold `Measure` tags that read as ordinary measures. Then `readStaff`
returns without a stream error; the tags that have a matching measure add no entry,
and every surplus tag adds one measure at the end of the sequence and one debug
line. Whatever the content reader, a `Measure` tag met with no measure left creates a
measure at the current cursor tick, appends it to the sequence, hands it to the
content reader of this staff and keeps what that returns, failing only through the
null last-measure reference of a multi-measure rest; and a `Measure` tag met with a
measure left adds no entry. -/
theorem readStaff_other_staff_surplus_tags (ext : Collaborators) (st : Session) (c : XmlNode)
    (hstaff : staffIndex c ≠ 0) (herr : st.e.error = .NoError)
    (hnd : st.score.measures.Nodup)
    (hall : ∀ j ∈ st.score.measures, j < st.score.pool.length ∧ (st.score.measure j).Settled)
    (htags : ∀ t ∈ c.children, InPlaceMeasureTag ext (staffIndex c) t) :
    (∃ st1, readStaff ext st c = some st1
      ∧ st1.score.measures = st.score.measures
          ++ List.range' st.score.pool.length (c.children.length - st.score.measures.length)
      ∧ st1.score.pool.length
          = st.score.pool.length + (c.children.length - st.score.measures.length)
      ∧ st1.debug = st.debug
          ++ List.replicate (c.children.length - st.score.measures.length) missingMeasureLine
      ∧ st1.e.error = .NoError)
    ∧ (∀ (staff : Int) (w : Walk) (t : XmlNode), w.measure = none →
        (staffNMeasure ext staff w t = none
          ↔ (readAndCheck ext staff t { Measure.blank with tick := w.st.e.tick }
                { w.st.e with currentMeasureIndex := w.measureIdx }).1.isMMRest = true
            ∧ (readAndCheck ext staff t { Measure.blank with tick := w.st.e.tick }
                { w.st.e with currentMeasureIndex := w.measureIdx }).2.lastMeasure = none)
        ∧ ∀ w1, staffNMeasure ext staff w t = some w1 →
            w1.st.score.measures = w.st.score.measures ++ [w.st.score.pool.length]
            ∧ w1.st.score.pool.length = w.st.score.pool.length + 1
            ∧ w1.st.debug = w.st.debug ++ [missingMeasureLine]
            ∧ w1.st.score.measure w.st.score.pool.length
                = (readAndCheck ext staff t { Measure.blank with tick := w.st.e.tick }
                    { w.st.e with currentMeasureIndex := w.measureIdx }).1)
    ∧ (∀ (staff : Int) (w : Walk) (t : XmlNode) (m : Nat), w.measure = some m →
        ∀ w1, staffNMeasure ext staff w t = some w1 →
          w1.st.score.measures = w.st.score.measures
          ∧ w1.st.score.pool.length = w.st.score.pool.length
          ∧ w1.st.debug = w.st.debug) := by
  refine ⟨?_, ?_, ?_⟩
  · obtain ⟨w1, h1, h2, h3, h4, -, h6, -⟩ :=
      staffNLoop_aligned ext (staffIndex c) c.children _ [] st.score.measures htags
        (startWalk_aligned st (staffIndex c) herr hnd hall)
    refine ⟨w1.st, ?_, h2, h3, h4, h6⟩
    unfold readStaff
    rw [if_neg hstaff, h1]
    rfl
  · intro staff w t hnone
    obtain ⟨h1, h2⟩ := staffNMeasure_surplus ext staff w t hnone
    refine ⟨h1, ?_⟩
    intro w1 hw
    obtain ⟨k1, k2, k3, k4, -⟩ := h2 w1 hw
    exact ⟨k1, k2, k3, k4⟩
  · intro staff w t m hsome
    exact staffNMeasure_no_entry ext staff w t m hsome

/-- Four measures and a second staff of six `Measure` tags that read as ordinary
measures: two measures are added at the end of the sequence and two debug lines are
written. -/
theorem readStaff_second_staff_six_tags :
    staffIndex (staffTag "2" [plainMeasureTag "u", plainMeasureTag "v", plainMeasureTag "w",
        plainMeasureTag "x", plainMeasureTag "y", plainMeasureTag "z"]) ≠ 0
    ∧ (readStaff sampleReaders fourMeasureSession
        (staffTag "2" [plainMeasureTag "u", plainMeasureTag "v", plainMeasureTag "w",
          plainMeasureTag "x", plainMeasureTag "y", plainMeasureTag "z"])).map
        (fun s => (s.score.measures, s.score.pool.length, s.debug))
      = some ([0, 1, 2, 3, 4, 5], 6, [missingMeasureLine, missingMeasureLine]) := by
  obtain ⟨⟨st1, h, h1, h2, h3, -⟩, -, -⟩ :=
    readStaff_other_staff_surplus_tags sampleReaders fourMeasureSession
      (staffTag "2" [plainMeasureTag "u", plainMeasureTag "v", plainMeasureTag "w",
        plainMeasureTag "x", plainMeasureTag "y", plainMeasureTag "z"])
      (by decide) (by decide) (by decide) fourMeasureSession_settled
      (by
        intro t ht
        simp only [staffTag, XmlNode.children, List.mem_cons, List.mem_singleton,
          List.not_mem_nil, or_false] at ht
        rcases ht with rfl | rfl | rfl | rfl | rfl | rfl <;> exact sampleReaders_inPlace _ _)
  refine ⟨by decide, ?_⟩
  rw [h, Option.map_some', h1, h2, h3]
  decide

/-- C10, the code at the failing input. A new document (empty measure sequence, no
last-measure reference) whose first `Staff` element is that of staff index 1 and
holds one `Measure` tag that reads as a multi-measure rest: the tag is a surplus
tag, the filler is created and read, and then line 314 evaluates
`e.lastMeasure()->nextMeasure()` on the null last-measure reference, so `readStaff`
does not return, and neither does `read400` on the document. The same happens when
staff 0 comes first and holds nothing but a multi-measure rest. The loop of staff 0
guards the same reference with `if (m1)` (line 281) and returns on the same tag. -/
theorem readStaff_surplus_mmRest_dereferences_null :
    staffIndex (staffTag "2" [mmRestTag "2"]) = 1
    ∧ (sampleSession "4.0").score.measures = []
    ∧ (sampleSession "4.0").e.lastMeasure = none
    ∧ (readAndCheck sampleReaders 1 (mmRestTag "2")
        { Measure.blank with tick := (sampleSession "4.0").e.tick }
        { (sampleSession "4.0").e with currentMeasureIndex := 0 }).1.isMMRest = true
    ∧ (readStaff sampleReaders (sampleSession "4.0") (staffTag "2" [mmRestTag "2"])).isNone
        = true
    ∧ (read400 sampleReaders sampleSettings (sampleSession "4.0")
        [.element "museScore" [] ""
          [.element "Score" [] "" [staffTag "2" [mmRestTag "2"]]]]).isNone = true
    ∧ (read400 sampleReaders sampleSettings (sampleSession "4.0")
        [.element "museScore" [] ""
          [.element "Score" [] ""
            [staffTag "1" [mmRestTag "2"], staffTag "2" [mmRestTag "2"]]]]).isNone = true
    ∧ (readStaff sampleReaders (sampleSession "4.0") (staffTag "1" [mmRestTag "2"])).map
        (fun s => (s.score.measures, s.score.pool.length, s.e.lastMeasure, s.e.error))
        = some ([], 1, none, .NoError) := by
  decide

end Ms
